import Mathlib

/-!
# kamia/js/main.js

A shallow embedding of the three classes of `main.js` (`StockAnalysisApp`,
`UserCounter`, `ProgressController`) together with the part of the browser they
talk to: element styles, the timer table behind `setTimeout` / `setInterval` /
`clearInterval`, the `count` entry of `localStorage`, the clock and
`Math.random`.

Conventions of the model.

* JavaScript numbers are exact: integers are `Int`, other numbers are
  rationals. On the values met here this agrees with double arithmetic: counts
  and percentages are integers (far below `2 ^ 53` on any page), the product
  `(percent - 33) * 1.5` is a half-integer, `Math.random() * 8` is a scaling by
  a power of two, and the one inexact intermediate, `elapsed / 1500 * 100`, is
  only fed to `Math.round`, where for an integer `elapsed` the exact value is
  never within `1 / 30` of a rounding boundary.
* The elements the constructor looks up are present, except `#people_num` and
  `#tips-code`, which the source guards and which are therefore optional here.
  `bars` is an array of elements of any length.
* Timer handles are the positive integers a browser hands out, so a handle
  stored in a field is truthy exactly when it is not `null`.
* The clock is an integer number of ms; a timer fires exactly when it is due,
  and a repeating timer is due again one period after its previous due time.
-/

namespace Kamia

/-! ## JavaScript primitives -/

/-- The code points removed by `String.prototype.trim` and skipped by
`parseInt`: the `WhiteSpace` and `LineTerminator` productions of ECMAScript. -/
def isWhiteSpace (c : Char) : Bool :=
  c.toNat = 0x09 || c.toNat = 0x0A || c.toNat = 0x0B || c.toNat = 0x0C ||
  c.toNat = 0x0D || c.toNat = 0x20 || c.toNat = 0xA0 || c.toNat = 0x1680 ||
  (0x2000 ≤ c.toNat && c.toNat ≤ 0x200A) || c.toNat = 0x2028 ||
  c.toNat = 0x2029 || c.toNat = 0x202F || c.toNat = 0x205F ||
  c.toNat = 0x3000 || c.toNat = 0xFEFF

/-- The method `String.prototype.trim`. -/
def trim (s : String) : String :=
  ⟨(s.data.dropWhile isWhiteSpace).rdropWhile isWhiteSpace⟩

/-- The function `Math.round`: the integer nearest to `x`, ties going up. -/
def mathRound (x : ℚ) : Int := ⌊x + 1 / 2⌋

/-- The function `Math.floor`. -/
def mathFloor (x : ℚ) : Int := ⌊x⌋

/-- Digits after the decimal point of `r / d` (with `r < d`), at most `fuel`
of them, stopping as soon as the expansion terminates. -/
def fracDigits : Nat → Nat → Nat → List Char
  | 0, _, _ => []
  | fuel + 1, r, d =>
    if r = 0 then [] else Nat.digitChar (r * 10 / d) :: fracDigits fuel (r * 10 % d) d

/-- The conversion `Number::toString` (radix 10) on a number whose decimal
expansion terminates within 20 places, which covers the integers and
half-integers this program prints: sign, integer part, and the fractional
digits when there are any. -/
def numberToString (q : ℚ) : String :=
  let n := q.num.natAbs
  let body := Nat.toDigits 10 (n / q.den) ++
    (if n % q.den = 0 then [] else '.' :: fracDigits 20 (n % q.den) q.den)
  ⟨if q.num < 0 then '-' :: body else body⟩

/-- Value of a character as a digit of the given radix (10 or 16), if it is
one. -/
def digitValue (radix : Nat) (c : Char) : Option Nat :=
  if 48 ≤ c.toNat ∧ c.toNat ≤ 57 then some (c.toNat - 48)
  else if radix = 16 ∧ 97 ≤ c.toNat ∧ c.toNat ≤ 102 then some (c.toNat - 87)
  else if radix = 16 ∧ 65 ≤ c.toNat ∧ c.toNat ≤ 70 then some (c.toNat - 55)
  else none

/-- Reads the longest run of radix digits at the head of `cs`; `acc` is the
value read so far and `seen` tells whether a digit has been read. The result
is `none` when there is no digit at all. -/
def readDigits (radix : Nat) : List Char → Nat → Bool → Option Nat
  | [], acc, seen => if seen then some acc else none
  | c :: cs, acc, seen =>
    match digitValue radix c with
    | some d => readDigits radix cs (acc * radix + d) true
    | none => if seen then some acc else none

/-- The global `parseInt(string)` called without a radix; `none` stands for
`NaN`. Leading white space is skipped, one sign is accepted, a `0x` / `0X`
marker switches to radix 16, and whatever follows the digits is ignored. -/
def parseInt (input : String) : Option Int :=
  let s := input.data.dropWhile isWhiteSpace
  let negative : Bool := s.head? = some '-'
  let s := if s.head? = some '-' ∨ s.head? = some '+' then s.tail else s
  let hex : Bool := match s with
    | c0 :: c1 :: _ => c0 = '0' ∧ (c1 = 'x' ∨ c1 = 'X')
    | _ => false
  let value := if hex then readDigits 16 (s.drop 2) 0 false else readDigits 10 s 0 false
  value.map fun m => if negative then -(m : Int) else (m : Int)

/-! ## The browser -/

/-- Function values that reach `ProgressController.run` as `onComplete`. -/
inductive Fn where
  /-- The arrow function built in `beginAnalysisProcess`, which calls
  `this.onProgressComplete()`. -/
  | progressDone
  /-- Any other function; calling it is recorded and has no further effect. -/
  | other (tag : Nat)
  deriving DecidableEq, Repr

/-- The callbacks this program registers with `setTimeout` and `setInterval`. -/
inductive Task where
  /-- The arrow in `showError` that hides the banner. -/
  | hideError
  /-- The arrow in `ProgressController.run`, with the current value of its
  captured variable `elapsed` and the captured argument `onComplete` (`none`
  when that argument is not a function). -/
  | tick (elapsed : Nat) (onComplete : Option Fn)
  /-- The function handed to `setTimeout(onComplete, 200)` in `complete`. -/
  | invoke (f : Fn)
  /-- The arrow in `UserCounter.start`: one update, then the 2 s interval. -/
  | counterFirst
  /-- The arrow `() => this.update(displayElement)` of that interval. -/
  | counterUpdate
  deriving DecidableEq, Repr

/-- One entry of the timer table. -/
structure Timer where
  /-- The handle returned to the program. -/
  id : Nat
  /-- Clock value, in ms, at which the callback runs next. -/
  due : Nat
  /-- The repeat period for `setInterval`, `none` for `setTimeout`. -/
  period : Option Nat
  task : Task
  deriving DecidableEq, Repr

/-- The parts of the document the program reads or writes. -/
structure Dom where
  /-- The inline `display` of `#ai-modal`. -/
  modal : String
  /-- The inline `display` of `#ai-progress`. -/
  progress : String
  /-- The inline `display` of `#ai-result`. -/
  result : String
  /-- The inline `width` of each element of `bars`, in order. -/
  bars : List String
  /-- The inline `display` of the `.error` banner. -/
  error : String
  /-- The text of `#people_num`; `none` when the element is absent. -/
  peopleNum : Option String
  /-- The value of the `#stockcode` input. -/
  stockCode : String
  /-- The text of `#tips-code`; `none` when the element is absent. -/
  tipsCode : Option String
  deriving DecidableEq, Repr

/-- Instance fields of `UserCounter`; `updateInterval` is the constant below. -/
structure UserCounter where
  count : Int
  intervalId : Option Nat
  deriving DecidableEq, Repr

/-- Instance fields of `ProgressController`; `bars` are the elements of
`Dom.bars`, `interval` and `duration` are the constants below. -/
structure ProgressController where
  timerId : Option Nat
  deriving DecidableEq, Repr

/-- The whole state of the page. -/
structure State where
  dom : Dom
  /-- The clock, in ms since the epoch. -/
  now : Nat
  /-- The handle the next `setTimeout` / `setInterval` returns. -/
  nextHandle : Nat
  /-- The timer table, in registration order. -/
  timers : List Timer
  /-- The value of `localStorage.getItem('count')`, `none` for `null`. -/
  storage : Option String
  /-- The host rendering of `Number.prototype.toLocaleString`. -/
  toLocaleString : Int → String
  /-- Record of every call of an `onComplete` function: clock value and
  function. -/
  invoked : List (Nat × Fn)
  isProcessing : Bool
  userCounter : UserCounter
  progressController : ProgressController

/-- The call `setTimeout(task, delay)`: a new one-shot entry; the handle is
the second component. -/
def setTimeout (task : Task) (delay : Nat) (s : State) : State × Nat :=
  ({ s with
      timers := s.timers ++ [⟨s.nextHandle, s.now + delay, none, task⟩]
      nextHandle := s.nextHandle + 1 }, s.nextHandle)

/-- The call `setInterval(task, period)`. -/
def setInterval (task : Task) (period : Nat) (s : State) : State × Nat :=
  ({ s with
      timers := s.timers ++ [⟨s.nextHandle, s.now + period, some period, task⟩]
      nextHandle := s.nextHandle + 1 }, s.nextHandle)

/-- The call `clearInterval(handle)`: the entry with that handle is dropped. -/
def clearInterval (handle : Nat) (s : State) : State :=
  { s with timers := s.timers.filter fun t => t.id ≠ handle }

/-! ## ProgressController -/

namespace ProgressController

/-- The field `interval`, assigned once in the constructor (ms). -/
def interval : Nat := 30

/-- The field `duration`, assigned once in the constructor (ms). -/
def duration : Nat := 1500

/-- The constructor: no timer yet. -/
def new : ProgressController := { timerId := none }

/-- The method `reset()`: stop the running timer, if any, and set every bar
to `0%`. -/
def reset (s : State) : State :=
  let s := match s.progressController.timerId with
    | some handle => { clearInterval handle s with progressController := { timerId := none } }
    | none => s
  { s with dom := { s.dom with bars := s.dom.bars.map fun _ => "0%" } }

/-- The method `updateBars(percent)`. -/
def updateBars (percent : Int) (s : State) : State :=
  if s.dom.bars.length < 3 then s
  else
    let bars := s.dom.bars.set 0 (numberToString percent ++ "%")
    let bars :=
      if percent > 33 then bars.set 1 (numberToString (((percent : ℚ) - 33) * 1.5) ++ "%")
      else bars
    let bars :=
      if percent > 66 then bars.set 2 (numberToString (((percent : ℚ) - 66) * 3) ++ "%")
      else bars
    { s with dom := { s.dom with bars := bars } }

/-- The method `complete(onComplete)`: stop the timer, force every bar to
`100%`, and hand `onComplete` to `setTimeout` with a delay of 200 ms when it is
a function. -/
def complete (onComplete : Option Fn) (s : State) : State :=
  let s := match s.progressController.timerId with
    | some handle => { clearInterval handle s with progressController := { timerId := none } }
    | none => s
  let s := { s with dom := { s.dom with bars := s.dom.bars.map fun _ => "100%" } }
  match onComplete with
  | some f => (setTimeout (.invoke f) 200 s).1
  | none => s

/-- The percentage computed in the interval callback of `run`. -/
def percentOf (elapsed : Nat) : Int :=
  min 100 (mathRound ((elapsed : ℚ) / (duration : ℚ) * 100))

/-- The body of the interval callback of `run`, after `elapsed += this.interval`
has produced the value `elapsed`. -/
def tick (elapsed : Nat) (onComplete : Option Fn) (s : State) : State :=
  let s := updateBars (percentOf elapsed) s
  if elapsed ≥ duration then complete onComplete s else s

/-- The method `run(onComplete)`: reset, show the progress container, and
start the interval with `elapsed = 0`. -/
def run (onComplete : Option Fn) (s : State) : State :=
  let s := reset s
  let s := { s with dom := { s.dom with progress := "block" } }
  let (s, handle) := setInterval (.tick 0 onComplete) interval s
  { s with progressController := { timerId := some handle } }

end ProgressController

/-! ## UserCounter -/

namespace UserCounter

/-- The field `updateInterval`, assigned once in the constructor (ms). -/
def updateInterval : Nat := 2000

/-- The constructor: `parseInt(localStorage.getItem('count')) || 18365`. A
missing entry is `null`, which `parseInt` reads as the string `"null"`; the
right operand of `||` is taken when the left one is `NaN` or zero. -/
def new (storage : Option String) : UserCounter :=
  { count :=
      match parseInt (storage.getD "null") with
      | some n => if n ≠ 0 then n else 18365
      | none => 18365
    intervalId := none }

/-- The delay computed in `start` from `getSeconds()` and
`getMilliseconds()`. -/
def firstDelay (seconds milliseconds : Int) : Int :=
  5000 - (Int.tmod seconds 5 * 1000 + milliseconds)

/-- The method `update(displayElement)` with the value `Math.random()`
returned; the display element is `#people_num`. -/
def update (random : ℚ) (s : State) : State :=
  match s.dom.peopleNum with
  | none => s
  | some _ =>
    let randomIncrement := mathFloor (random * 8)
    let count := s.userCounter.count + randomIncrement
    { s with
        userCounter := { s.userCounter with count := count }
        storage := some (numberToString count)
        dom := { s.dom with peopleNum := some (s.toLocaleString count) } }

/-- The method `start(displayElement)`; the display element is `#people_num`.
The clock gives `getSeconds()` and `getMilliseconds()` (time-zone offsets are
whole minutes). A negative delay is treated by `setTimeout` as zero. -/
def start (s : State) : State :=
  match s.dom.peopleNum with
  | none => s
  | some _ =>
    let s := { s with dom := { s.dom with peopleNum := some (s.toLocaleString s.userCounter.count) } }
    let milliseconds : Int := s.now % 1000
    let seconds : Int := s.now / 1000 % 60
    let delay := firstDelay seconds milliseconds
    (setTimeout .counterFirst delay.toNat s).1

/-- The method `stop()`. -/
def stop (s : State) : State :=
  match s.userCounter.intervalId with
  | some handle =>
    { clearInterval handle s with userCounter := { s.userCounter with intervalId := none } }
  | none => s

end UserCounter

/-! ## StockAnalysisApp -/

namespace StockAnalysisApp

/-- The method `validateInput(input)`, as the truth value of
`input && input.length > 0`. -/
def validateInput (input : String) : Bool :=
  input ≠ "" && input.length > 0

/-- The method `showError()`. -/
def showError (s : State) : State :=
  let s := { s with dom := { s.dom with error := "flex" } }
  (setTimeout .hideError 3000 s).1

/-- The method `onProgressComplete()`. -/
def onProgressComplete (s : State) : State :=
  { s with dom := { s.dom with progress := "none", result := "block" } }

/-- The method `beginAnalysisProcess()`. -/
def beginAnalysisProcess (s : State) : State :=
  let s := { s with isProcessing := true }
  let s := { s with dom := { s.dom with modal := "flex", result := "none" } }
  ProgressController.run (some .progressDone) s

/-- The method `startAnalysis()`. -/
def startAnalysis (s : State) : State :=
  if s.isProcessing then s
  else
    let stockCode := trim s.dom.stockCode
    if !validateInput stockCode then showError s
    else
      let s := match s.dom.tipsCode with
        | some _ => { s with dom := { s.dom with tipsCode := some stockCode } }
        | none => s
      beginAnalysisProcess s

/-- The method `closeModal()`. -/
def closeModal (s : State) : State :=
  let s := { s with dom := { s.dom with modal := "none", result := "none", progress := "none" } }
  let s := { s with isProcessing := false }
  ProgressController.reset s

/-- The constructor followed by `init()`, on a page whose timer table is
empty: fields are set and the user counter is started. The listeners bound by
`bindEvents` and `addKeyboardSupport` are the cases of `Event` below. -/
def new (dom : Dom) (storage : Option String) (now nextHandle : Nat)
    (toLocaleString : Int → String) : State :=
  UserCounter.start
    { dom := dom, now := now, nextHandle := nextHandle, timers := [], storage := storage,
      toLocaleString := toLocaleString, invoked := [], isProcessing := false,
      userCounter := UserCounter.new storage, progressController := ProgressController.new }

end StockAnalysisApp

/-! ## The event loop -/

/-- Calling a function that was passed as `onComplete`. -/
def invoke (f : Fn) (s : State) : State :=
  let s := { s with invoked := s.invoked ++ [(s.now, f)] }
  match f with
  | .progressDone => StockAnalysisApp.onProgressComplete s
  | .other _ => s

/-- The state a callback leaves in its closure for its next run: the interval
callback of `run` starts with `elapsed += this.interval`. -/
def Task.next : Task → Task
  | .tick elapsed onComplete => .tick (elapsed + ProgressController.interval) onComplete
  | t => t

/-- Running a callback; `random` is what `Math.random()` returns if called. -/
def runTask (random : ℚ) : Task → State → State
  | .hideError, s => { s with dom := { s.dom with error := "none" } }
  | .tick elapsed onComplete, s =>
    ProgressController.tick (elapsed + ProgressController.interval) onComplete s
  | .invoke f, s => invoke f s
  | .counterFirst, s =>
    let s := UserCounter.update random s
    let (s, handle) := setInterval .counterUpdate UserCounter.updateInterval s
    { s with userCounter := { s.userCounter with intervalId := some handle } }
  | .counterUpdate, s => UserCounter.update random s

/-- The timer `t` fires: the clock moves to its due time, a one-shot entry
leaves the table and a repeating one is rescheduled one period later, then the
callback runs. -/
def fire (random : ℚ) (t : Timer) (s : State) : State :=
  let s := { s with now := max s.now t.due }
  match t.period with
  | none => runTask random t.task { s with timers := s.timers.filter fun u => u.id ≠ t.id }
  | some p =>
    runTask random t.task
      { s with timers := s.timers.map fun u =>
          if u.id = t.id then { u with due := t.due + p, task := t.task.next } else u }

/-- The entry that fires next: the earliest due time, and among equal due
times the one registered first. -/
def earliest : List Timer → Option Timer
  | [] => none
  | t :: ts =>
    match earliest ts with
    | none => some t
    | some u => if u.due < t.due then some u else some t

/-- One turn of the event loop when no user input is pending: the next timer
fires, or nothing happens when the table is empty. -/
def step (random : ℚ) (s : State) : State :=
  match earliest s.timers with
  | none => s
  | some t => fire random t s

/-- What can happen to the page. -/
inductive Event where
  /-- A click on `#start-analysis-btn`. -/
  | clickStart
  /-- A click on `#close-result-btn`. -/
  | clickClose
  /-- A click on the `.error` banner. -/
  | clickError
  /-- A `keypress` on `#stockcode` with the given `key`. -/
  | keypress (key : String)
  /-- A `keydown` on the document with the given `key`. -/
  | keydown (key : String)
  /-- The user changes the text of `#stockcode`. -/
  | input (value : String)
  /-- The timer with this handle fires, if it is in the table. -/
  | timer (handle : Nat) (random : ℚ)
  /-- Time passes. -/
  | wait (ms : Nat)

/-- The listener (or host action) behind each event. -/
def handle (s : State) : Event → State
  | .clickStart => StockAnalysisApp.startAnalysis s
  | .clickClose => StockAnalysisApp.closeModal s
  | .clickError => { s with dom := { s.dom with error := "none" } }
  | .keypress key => if key = "Enter" then StockAnalysisApp.startAnalysis s else s
  | .keydown key =>
    if key = "Escape" ∧ s.isProcessing then StockAnalysisApp.closeModal s else s
  | .input value => { s with dom := { s.dom with stockCode := value } }
  | .timer h random =>
    match s.timers.find? fun t => t.id = h with
    | some t => fire random t s
    | none => s
  | .wait ms => { s with now := s.now + ms }

/-! ## Executions -/

/-- The event loop runs one turn for each element of `randoms`, which supplies
the values of `Math.random()`. -/
def steps (randoms : List ℚ) (s : State) : State :=
  randoms.foldl (fun st r => step r st) s

/-- The timer with handle `h` fires `k` times in a row. -/
def ticks (h : Nat) : Nat → State → State
  | 0, s => s
  | k + 1, s => handle (ticks h k s) (.timer h 0)

/-- A direct call of a method of the controller, or an event of the page. -/
inductive Call where
  | run (onComplete : Option Fn)
  | reset
  | complete (onComplete : Option Fn)
  | event (e : Event)

/-- The effect of a call. -/
def Call.apply (s : State) : Call → State
  | .run onComplete => ProgressController.run onComplete s
  | .reset => ProgressController.reset s
  | .complete onComplete => ProgressController.complete onComplete s
  | .event e => handle s e

/-- The calls of `cs` made one after the other. -/
def perform (cs : List Call) (s : State) : State := cs.foldl Call.apply s

/-! ## Auxiliary definitions for the proofs -/

/-- The timer table without the entry a handle field points to. -/
def cancelled (handle : Option Nat) (timers : List Timer) : List Timer :=
  match handle with
  | some h => timers.filter fun t => t.id ≠ h
  | none => timers

/-- The entry `complete` adds to the timer table. -/
def scheduled (onComplete : Option Fn) (handle due : Nat) : List Timer :=
  match onComplete with
  | some f => [⟨handle, due, none, .invoke f⟩]
  | none => []

/-- The widths `updateBars percent` leaves, as a function of the widths it
finds. -/
def widthsAfter (percent : Int) (bars : List String) : List String :=
  if bars.length < 3 then bars
  else
    let bars := bars.set 0 (numberToString percent ++ "%")
    let bars :=
      if percent > 33 then bars.set 1 (numberToString (((percent : ℚ) - 33) * 1.5) ++ "%")
      else bars
    if percent > 66 then bars.set 2 (numberToString (((percent : ℚ) - 66) * 3) ++ "%")
    else bars

/-- The widths after the first `k` calls of `updateBars` in an animation. -/
def widthsAfterTicks : Nat → List String → List String
  | 0, bars => bars
  | k + 1, bars =>
    widthsAfter (ProgressController.percentOf (30 * (k + 1))) (widthsAfterTicks k bars)

/-- Whether a timer entry is the interval callback of `run`. -/
def isTick (t : Timer) : Bool :=
  match t.task with
  | .tick _ _ => true
  | _ => false

/-- The interval timers of `run` that are in the table. -/
def tickTimers (s : State) : List Timer := s.timers.filter isTick

/-- What the browser guarantees about handles (they are fresh), what `run`
guarantees about its timers (they repeat), and the link between the table and
`timerId`. -/
structure TimerInv (T : List Timer) (n : Nat) (tid : Option Nat) : Prop where
  lt : ∀ t ∈ T, t.id < n
  nodup : (T.map Timer.id).Nodup
  periodic : ∀ t ∈ T, isTick t = true → t.period ≠ none
  ticks : (T.filter isTick).map Timer.id = tid.toList

/-- The invariant `TimerInv` on a state. -/
def Inv (s : State) : Prop :=
  TimerInv s.timers s.nextHandle s.progressController.timerId

/-- The entries of the log that are calls of `f`. -/
def callsOf (f : Fn) (log : List (Nat × Fn)) : List (Nat × Fn) :=
  log.filter fun e => e.2 = f

/-- The timers in the table whose callback is `f`. -/
def pendingCalls (f : Fn) (s : State) : List Timer :=
  s.timers.filter fun t => t.task = .invoke f

/-- Where the animation started by `run (some f)` in the state `s` stands in a
later state `st`. -/
inductive Phase (s : State) (f : Fn) (st : State) : Prop where
  /-- After `k < 50` ticks: the tick timer is registered, `f` is neither
  scheduled nor called. -/
  | ticking (k : Nat) (hk : k < 50)
      (htick : tickTimers st =
        [⟨s.nextHandle, s.now + 30 * (k + 1), some 30, .tick (30 * k) (some f)⟩])
      (hid : st.progressController.timerId = some s.nextHandle)
      (hlo : s.now + 30 * k ≤ st.now) (hhi : st.now ≤ s.now + 30 * (k + 1))
      (hpend : pendingCalls f st = [])
      (hlog : callsOf f st.invoked = callsOf f s.invoked)
  /-- After the 50th tick: the tick timer is cancelled, `f` is scheduled for
  1700 ms after the start and not yet called. -/
  | waiting (c : Nat)
      (htick : tickTimers st = [])
      (hid : st.progressController.timerId = none)
      (hlo : s.now + 1500 ≤ st.now) (hhi : st.now ≤ s.now + 1700)
      (hpend : pendingCalls f st = [⟨c, s.now + 1700, none, .invoke f⟩])
      (hlog : callsOf f st.invoked = callsOf f s.invoked)
  /-- After the call of `f`: nothing of the animation is left in the table and
  `f` has been called once, 1700 ms after the start. -/
  | done
      (htick : tickTimers st = [])
      (hid : st.progressController.timerId = none)
      (hlo : s.now + 1700 ≤ st.now)
      (hpend : pendingCalls f st = [])
      (hlog : callsOf f st.invoked = callsOf f s.invoked ++ [(s.now + 1700, f)])

/-- The table after the timer `e` has fired and before its callback runs. -/
def afterFiring (e : Timer) (T1 T2 : List Timer) : List Timer :=
  match e.period with
  | none => T1 ++ T2
  | some p => T1 ++ { e with due := e.due + p, task := e.task.next } :: T2

/-- A page with every element present and `AAPL` typed in. -/
def samplePage : Dom :=
  { modal := "none", progress := "none", result := "none", bars := ["", "", ""], error := "none",
    peopleNum := some "", stockCode := " AAPL ", tipsCode := some "" }

/-- The application just constructed on `samplePage`, on a 5 s boundary, with
an empty store. -/
def sampleApp : State :=
  StockAnalysisApp.new samplePage none 1000000 1 fun n => numberToString n

/-- The same application on a page whose input holds only white space. -/
def blankApp : State :=
  StockAnalysisApp.new { samplePage with stockCode := " \t " } none 1000000 1
    fun n => numberToString n

/-- The same application on a page without `#people_num`, so that no timer is
pending after construction. -/
def quietApp : State :=
  StockAnalysisApp.new { samplePage with peopleNum := none } none 1000000 1
    fun n => numberToString n

open StockAnalysisApp ProgressController

theorem trim_of_all_whiteSpace (v : String) (h : ∀ c ∈ v.data, isWhiteSpace c = true) :
    trim v = "" := by
  have h1 : v.data.dropWhile isWhiteSpace = [] := List.dropWhile_eq_nil_iff.mpr h
  simp [trim, h1]

theorem validateInput_eq_true_iff (v : String) : validateInput v = true ↔ v ≠ "" := by
  obtain ⟨cs⟩ := v
  cases cs with
  | nil => simp [validateInput]
  | cons c cs =>
    have h : (String.mk (c :: cs)) ≠ "" := by
      intro h
      have := congrArg String.data h
      simp at this
    simp [validateInput, h, String.length]

theorem reset_eq (s : State) :
    reset s =
      { s with
          timers := cancelled s.progressController.timerId s.timers
          progressController := { timerId := none }
          dom := { s.dom with bars := s.dom.bars.map fun _ => "0%" } } := by
  unfold reset cancelled clearInterval
  cases h : s.progressController.timerId with
  | none =>
    have : s.progressController = { timerId := none } := by
      cases hp : s.progressController; simp_all
    simp [← this]
  | some v => simp

theorem run_eq (onComplete : Option Fn) (s : State) :
    run onComplete s =
      { s with
          timers := cancelled s.progressController.timerId s.timers ++
            [⟨s.nextHandle, s.now + 30, some 30, .tick 0 onComplete⟩]
          nextHandle := s.nextHandle + 1
          progressController := { timerId := some s.nextHandle }
          dom := { s.dom with progress := "block", bars := s.dom.bars.map fun _ => "0%" } } := by
  simp [run, reset_eq, setInterval, interval]

theorem updateBars_eq (percent : Int) (s : State) :
    updateBars percent s =
      { s with dom := { s.dom with bars := widthsAfter percent s.dom.bars } } := by
  unfold updateBars widthsAfter
  split
  · rfl
  · rfl

theorem complete_eq (onComplete : Option Fn) (s : State) :
    complete onComplete s =
      { s with
          timers := cancelled s.progressController.timerId s.timers ++
            scheduled onComplete s.nextHandle (s.now + 200)
          nextHandle := s.nextHandle + (if onComplete.isSome then 1 else 0)
          progressController := { timerId := none }
          dom := { s.dom with bars := s.dom.bars.map fun _ => "100%" } } := by
  unfold complete cancelled clearInterval setTimeout scheduled
  cases h : s.progressController.timerId with
  | none =>
    have : s.progressController = { timerId := none } := by
      cases hp : s.progressController; simp_all
    cases onComplete <;> simp [← this]
  | some v => cases onComplete <;> simp

theorem filter_ne_of_forall_ne' (T : List Timer) (h : Nat) (hT : ∀ t ∈ T, t.id ≠ h) :
    T.filter (fun t => !decide (t.id = h)) = T := by
  apply List.filter_eq_self.mpr
  intro t ht
  simpa using hT t ht

theorem map_of_forall_ne (T : List Timer) (h : Nat) (f : Timer → Timer)
    (hT : ∀ t ∈ T, t.id ≠ h) :
    T.map (fun u => if u.id = h then f u else u) = T := by
  induction T with
  | nil => rfl
  | cons t T ih =>
    have h1 : t.id ≠ h := hT t (by simp)
    simp [h1]
    exact ih (fun u hu => hT u (by simp [hu]))

theorem find_of_forall_ne (T : List Timer) (x : Timer) (hT : ∀ t ∈ T, t.id ≠ x.id) :
    (T ++ [x]).find? (fun t => t.id = x.id) = some x := by
  induction T with
  | nil => simp
  | cons t T ih =>
    have h1 : t.id ≠ x.id := hT t (by simp)
    simp [List.find?, h1]
    have := ih (fun u hu => hT u (by simp [hu]))
    simpa using this

/-- A tick of a running animation that does not finish it. -/
theorem fire_tick_early (random : ℚ) (T : List Timer) (h d e : Nat) (oc : Option Fn)
    (st : State) (hT : ∀ t ∈ T, t.id ≠ h)
    (hst : st.timers = T ++ [⟨h, d, some 30, .tick e oc⟩])
    (he : e + 30 < 1500) :
    fire random ⟨h, d, some 30, .tick e oc⟩ st =
      { st with
          now := max st.now d
          timers := T ++ [⟨h, d + 30, some 30, .tick (e + 30) oc⟩]
          dom := { st.dom with bars := widthsAfter (percentOf (e + 30)) st.dom.bars } } := by
  have hne : ¬ (1500 ≤ e + 30) := by omega
  simp [fire, runTask, ProgressController.tick, updateBars_eq, hst, interval, duration, hne,
    map_of_forall_ne T h _ hT, Task.next]

/-- The tick of a running animation that finishes it. -/
theorem fire_tick_last (random : ℚ) (T : List Timer) (h d e : Nat) (oc : Option Fn)
    (st : State) (hT : ∀ t ∈ T, t.id ≠ h)
    (hst : st.timers = T ++ [⟨h, d, some 30, .tick e oc⟩])
    (hid : st.progressController.timerId = some h)
    (he : 1500 ≤ e + 30) :
    fire random ⟨h, d, some 30, .tick e oc⟩ st =
      { st with
          now := max st.now d
          timers := T ++ scheduled oc st.nextHandle (max st.now d + 200)
          nextHandle := st.nextHandle + (if oc.isSome then 1 else 0)
          progressController := { timerId := none }
          dom := { st.dom with bars := (widthsAfter (percentOf (e + 30)) st.dom.bars).map fun _ => "100%" } } := by
  simp [fire, runTask, ProgressController.tick, updateBars_eq, hst, interval, duration, he,
    map_of_forall_ne T h _ hT, Task.next, complete_eq, hid, cancelled,
    filter_ne_of_forall_ne' T h hT]

theorem percentOf_eq (e : Nat) :
    percentOf e = min 100 (((200 * e + 1500) / 3000 : Nat) : Int) := by
  unfold percentOf mathRound duration
  congr 1
  rw [Int.floor_eq_iff]
  have h1 : ((e : ℚ) / ((1500 : ℕ) : ℚ) * 100 + 1 / 2) = ((200 * e + 1500 : ℕ) : ℚ) / 3000 := by
    push_cast; ring
  rw [h1]
  have hdm := Nat.div_add_mod (200 * e + 1500) 3000
  have hlt := Nat.mod_lt (200 * e + 1500) (show 3000 > 0 by norm_num)
  set q := (200 * e + 1500) / 3000
  set r := (200 * e + 1500) % 3000
  have hq : ((200 * e + 1500 : ℕ) : ℚ) = 3000 * q + r := by exact_mod_cast hdm.symm
  rw [hq]
  constructor
  · rw [le_div_iff₀ (by norm_num)]
    have : (0 : ℚ) ≤ r := Nat.cast_nonneg r
    push_cast
    linarith
  · rw [div_lt_iff₀ (by norm_num)]
    have : (r : ℚ) < 3000 := by exact_mod_cast hlt
    push_cast
    linarith

theorem percentOf_tick (k : Nat) (hk : k ≤ 50) : percentOf (30 * k) = ((2 * k : Nat) : Int) := by
  rw [percentOf_eq]
  have : (200 * (30 * k) + 1500) / 3000 = 2 * k := by omega
  rw [this]
  have : ((2 * k : Nat) : Int) ≤ 100 := by exact_mod_cast (by omega : 2 * k ≤ 100)
  exact min_eq_right this

theorem handle_timer_last (r : ℚ) (T : List Timer) (x : Timer) (st : State)
    (hT : ∀ t ∈ T, t.id ≠ x.id) (hst : st.timers = T ++ [x]) :
    handle st (.timer x.id r) = fire r x st := by
  simp [handle, hst, find_of_forall_ne T x hT]

theorem mem_cancelled (handle : Option Nat) (timers : List Timer) (t : Timer)
    (h : t ∈ cancelled handle timers) : t ∈ timers := by
  unfold cancelled at h
  cases handle with
  | none => exact h
  | some v => exact (List.mem_filter.mp h).1

theorem length_widthsAfter (p : Int) (bars : List String) :
    (widthsAfter p bars).length = bars.length := by
  unfold widthsAfter
  split
  · rfl
  · simp only []
    split <;> split <;> simp

theorem length_widthsAfterTicks (k : Nat) (bars : List String) :
    (widthsAfterTicks k bars).length = bars.length := by
  induction k with
  | zero => rfl
  | succ k ih => rw [widthsAfterTicks, length_widthsAfter, ih]

/-- The state `k` ticks into an animation, for `k ≤ 49`. -/
theorem ticks_run_eq (s : State) (oc : Option Fn) (k : Nat)
    (hfresh : ∀ t ∈ s.timers, t.id ≠ s.nextHandle) (hk : k ≤ 49) :
    ticks s.nextHandle k (run oc s) =
      { s with
          now := s.now + 30 * k
          timers := cancelled s.progressController.timerId s.timers ++
            [⟨s.nextHandle, s.now + 30 * (k + 1), some 30, .tick (30 * k) oc⟩]
          nextHandle := s.nextHandle + 1
          progressController := { timerId := some s.nextHandle }
          dom := { s.dom with
            progress := "block"
            bars := widthsAfterTicks k (s.dom.bars.map fun _ => "0%") } } := by
  have hT : ∀ t ∈ cancelled s.progressController.timerId s.timers, t.id ≠ s.nextHandle :=
    fun t ht => hfresh t (mem_cancelled _ _ t ht)
  induction k with
  | zero => simp [ticks, run_eq, widthsAfterTicks]
  | succ k ih =>
    have ih := ih (by omega)
    rw [ticks, ih]
    rw [handle_timer_last 0 _ ⟨s.nextHandle, s.now + 30 * (k + 1), some 30, .tick (30 * k) oc⟩ _
      hT rfl]
    rw [fire_tick_early 0 _ s.nextHandle _ _ _ _ hT rfl (by omega)]
    have h1 : max (s.now + 30 * k) (s.now + 30 * (k + 1)) = s.now + 30 * (k + 1) := by omega
    have h2 : s.now + 30 * (k + 1) + 30 = s.now + 30 * (k + 1 + 1) := by omega
    have h3 : 30 * k + 30 = 30 * (k + 1) := by omega
    simp [h1, h2, h3, widthsAfterTicks]

/-- The state after the 50th tick of an animation. -/
theorem ticks_run_done (s : State) (oc : Option Fn)
    (hfresh : ∀ t ∈ s.timers, t.id ≠ s.nextHandle) :
    ticks s.nextHandle 50 (run oc s) =
      { s with
          now := s.now + 1500
          timers := cancelled s.progressController.timerId s.timers ++
            scheduled oc (s.nextHandle + 1) (s.now + 1700)
          nextHandle := s.nextHandle + 1 + (if oc.isSome then 1 else 0)
          progressController := { timerId := none }
          dom := { s.dom with
            progress := "block"
            bars := s.dom.bars.map fun _ => "100%" } } := by
  have hT : ∀ t ∈ cancelled s.progressController.timerId s.timers, t.id ≠ s.nextHandle :=
    fun t ht => hfresh t (mem_cancelled _ _ t ht)
  rw [ticks, ticks_run_eq s oc 49 hfresh (by omega)]
  rw [handle_timer_last 0 _ ⟨s.nextHandle, s.now + 30 * (49 + 1), some 30, .tick (30 * 49) oc⟩ _
      hT rfl]
  rw [fire_tick_last 0 _ s.nextHandle _ _ _ _ hT rfl rfl (by omega)]
  simp [List.map_const', length_widthsAfter, length_widthsAfterTicks]

theorem widthsAfter_three (p : Int) (a b c : String) :
    widthsAfter p [a, b, c] =
      [numberToString p ++ "%",
       if p > 33 then numberToString (((p : ℚ) - 33) * 1.5) ++ "%" else b,
       if p > 66 then numberToString (((p : ℚ) - 66) * 3) ++ "%" else c] := by
  unfold widthsAfter
  by_cases h1 : p > 33 <;> by_cases h2 : p > 66 <;> simp [h1, h2]

theorem widthsAfterTicks_three (k : Nat) (hk : k ≤ 50) :
    widthsAfterTicks k ["0%", "0%", "0%"] =
      [if k = 0 then "0%" else numberToString ((2 * k : ℕ) : ℚ) ++ "%",
       if 2 * k > 33 then numberToString ((((2 * k : ℕ) : ℚ) - 33) * 1.5) ++ "%" else "0%",
       if 2 * k > 66 then numberToString ((((2 * k : ℕ) : ℚ) - 66) * 3) ++ "%" else "0%"] := by
  induction k with
  | zero => simp [widthsAfterTicks]
  | succ k ih =>
    rw [widthsAfterTicks, ih (by omega), widthsAfter_three, percentOf_tick (k + 1) hk]
    have e1 : (((2 * (k + 1) : ℕ) : ℤ) > 33) = (2 * (k + 1) > 33) := by
      apply propext; constructor <;> intro h <;> omega
    have e2 : (((2 * (k + 1) : ℕ) : ℤ) > 66) = (2 * (k + 1) > 66) := by
      apply propext; constructor <;> intro h <;> omega
    simp only [e1, e2, Int.cast_natCast]
    by_cases h1 : 2 * (k + 1) > 33 <;> by_cases h2 : 2 * (k + 1) > 66
    · simp [h1, h2]
    · simp [h1, h2]
      intro h; omega
    · omega
    · have h3 : ¬ (2 * k > 33) := by omega
      have h4 : ¬ (2 * k > 66) := by omega
      simp [h1, h2, h3, h4]

theorem map_zero_three (bars : List String) (h : bars.length = 3) :
    bars.map (fun _ => "0%") = ["0%", "0%", "0%"] := by
  rw [List.map_const', h]; rfl

theorem steps_snoc (rs : List ℚ) (r : ℚ) (s : State) :
    steps (rs ++ [r]) s = step r (steps rs s) := by
  simp [steps, List.foldl_append]

theorem step_single (r : ℚ) (x : Timer) (st : State) (h : st.timers = [x]) :
    step r st = fire r x st := by
  simp [step, h, earliest]

theorem step_idle (r : ℚ) (st : State) (h : st.timers = []) : step r st = st := by
  simp [step, h, earliest]

theorem steps_idle (rs : List ℚ) (st : State) (h : st.timers = []) : steps rs st = st := by
  induction rs using List.reverseRecOn with
  | nil => rfl
  | append_singleton rs r ih => rw [steps_snoc, ih, step_idle r st h]

theorem cancelled_nil (handle : Option Nat) : cancelled handle [] = [] := by
  cases handle <;> rfl

/-- With nothing else in the timer table, the event loop turns are the ticks
of the animation. -/
theorem steps_run_eq_ticks (s : State) (oc : Option Fn) (rs : List ℚ)
    (hidle : s.timers = []) (hlen : rs.length ≤ 50) :
    steps rs (run oc s) = ticks s.nextHandle rs.length (run oc s) := by
  have hfresh : ∀ t ∈ s.timers, t.id ≠ s.nextHandle := by simp [hidle]
  induction rs using List.reverseRecOn with
  | nil => rfl
  | append_singleton rs r ih =>
    simp only [List.length_append, List.length_singleton] at hlen ⊢
    rw [steps_snoc, ih (by omega), ticks]
    have hk := ticks_run_eq s oc rs.length hfresh (by omega)
    have ht : (ticks s.nextHandle rs.length (run oc s)).timers =
        [] ++ [⟨s.nextHandle, s.now + 30 * (rs.length + 1), some 30, .tick (30 * rs.length) oc⟩] := by
      rw [hk]; simp [hidle, cancelled_nil]
    rw [step_single r _ _ ht,
      handle_timer_last 0 [] ⟨s.nextHandle, s.now + 30 * (rs.length + 1), some 30,
        .tick (30 * rs.length) oc⟩ _ (by simp) ht]
    rfl

theorem TimerInv.tick_id {T : List Timer} {n : Nat} {tid : Option Nat} (h : TimerInv T n tid)
    {t : Timer} (ht : t ∈ T) (hk : isTick t = true) : tid = some t.id := by
  have hm : t.id ∈ (T.filter isTick).map Timer.id :=
    List.mem_map.mpr ⟨t, List.mem_filter.mpr ⟨ht, hk⟩, rfl⟩
  rw [h.ticks] at hm
  cases tid with
  | none => simp at hm
  | some v => simp at hm; simp [hm]

theorem TimerInv.eq_of_id {T : List Timer} {n : Nat} {tid : Option Nat} (h : TimerInv T n tid)
    {t u : Timer} (ht : t ∈ T) (hu : u ∈ T) (hid : t.id = u.id) : t = u :=
  List.inj_on_of_nodup_map h.nodup ht hu hid

/-- Cancelling the timer behind `timerId` leaves no tick timer. -/
theorem TimerInv.cancel {T : List Timer} {n : Nat} {tid : Option Nat} (h : TimerInv T n tid) :
    TimerInv (cancelled tid T) n none := by
  have hsub : ∀ t ∈ cancelled tid T, t ∈ T := fun t ht => mem_cancelled _ _ t ht
  refine ⟨fun t ht => h.lt t (hsub t ht), ?_, fun t ht => h.periodic t (hsub t ht), ?_⟩
  · cases tid with
    | none => exact h.nodup
    | some v => exact (h.nodup.sublist (List.Sublist.map _ (List.filter_sublist _)))
  · simp only [Option.toList, List.map_eq_nil_iff, List.filter_eq_nil_iff]
    intro t ht hk
    have := h.tick_id (hsub t ht) hk
    subst this
    simp [cancelled] at ht

/-- Registering a timer that is not a tick timer. -/
theorem TimerInv.add {T : List Timer} {n : Nat} {tid : Option Nat} (h : TimerInv T n tid)
    (x : Timer) (hx : x.id = n) (hk : isTick x = false) :
    TimerInv (T ++ [x]) (n + 1) tid := by
  refine ⟨?_, ?_, ?_, ?_⟩
  · intro t ht
    rcases List.mem_append.mp ht with ht | ht
    · have := h.lt t ht; omega
    · simp at ht; subst ht; omega
  · rw [List.map_append, List.nodup_append]
    refine ⟨h.nodup, by simp, ?_⟩
    intro a ha hb
    simp at hb
    obtain ⟨t, ht, rfl⟩ := List.mem_map.mp ha
    have := h.lt t ht
    omega
  · intro t ht hkt
    rcases List.mem_append.mp ht with ht | ht
    · exact h.periodic t ht hkt
    · simp at ht; subst ht; simp [hk] at hkt
  · simp [List.filter_append, hk, h.ticks]

/-- Registering the tick timer of `run` after a cancel. -/
theorem TimerInv.addTick {T : List Timer} {n : Nat} (h : TimerInv T n none)
    (x : Timer) (hx : x.id = n) (hk : isTick x = true) (hp : x.period ≠ none) :
    TimerInv (T ++ [x]) (n + 1) (some n) := by
  refine ⟨?_, ?_, ?_, ?_⟩
  · intro t ht
    rcases List.mem_append.mp ht with ht | ht
    · have := h.lt t ht; omega
    · simp at ht; subst ht; omega
  · rw [List.map_append, List.nodup_append]
    refine ⟨h.nodup, by simp, ?_⟩
    intro a ha hb
    simp at hb
    obtain ⟨t, ht, rfl⟩ := List.mem_map.mp ha
    have := h.lt t ht
    omega
  · intro t ht hkt
    rcases List.mem_append.mp ht with ht | ht
    · exact h.periodic t ht hkt
    · simp at ht; subst ht; exact hp
  · have := h.ticks
    simp at this
    simp [List.filter_append, hk, hx]
    intro t ht
    have := this t ht
    simpa using this

/-- A one-shot timer that is not a tick timer leaves the table. -/
theorem TimerInv.remove {T : List Timer} {n : Nat} {tid : Option Nat} (h : TimerInv T n tid)
    {t : Timer} (ht : t ∈ T) (hk : isTick t = false) :
    TimerInv (T.filter fun u => u.id ≠ t.id) n tid := by
  have hsub : ∀ u ∈ T.filter (fun u => u.id ≠ t.id), u ∈ T :=
    fun u hu => (List.mem_filter.mp hu).1
  refine ⟨fun u hu => h.lt u (hsub u hu), ?_, fun u hu => h.periodic u (hsub u hu), ?_⟩
  · exact h.nodup.sublist (List.Sublist.map _ (List.filter_sublist _))
  · rw [← h.ticks, List.filter_filter]
    congr 1
    apply List.filter_congr
    intro u hu
    by_cases hku : isTick u = true
    · have hne : u.id ≠ t.id := by
        intro hid
        have := h.eq_of_id hu ht hid
        subst this
        simp [hk] at hku
      simp [hku, hne]
    · simp [hku]

/-- A repeating timer is rescheduled in place. -/
theorem TimerInv.reschedule {T : List Timer} {n : Nat} {tid : Option Nat} (h : TimerInv T n tid)
    {t : Timer} (ht : t ∈ T) (d : Nat) :
    TimerInv (T.map fun u => if u.id = t.id then { u with due := d, task := t.task.next } else u)
      n tid := by
  have hid : ∀ u : Timer,
      (if u.id = t.id then { u with due := d, task := t.task.next } else u).id = u.id := by
    intro u; split <;> rfl
  have hper : ∀ u : Timer,
      (if u.id = t.id then { u with due := d, task := t.task.next } else u).period = u.period := by
    intro u; split <;> rfl
  have hnext : ∀ k : Task, (match k.next with | .tick _ _ => true | _ => false) =
      (match k with | .tick _ _ => true | _ => false) := by
    intro k; cases k <;> rfl
  have htick : ∀ u ∈ T,
      isTick (if u.id = t.id then { u with due := d, task := t.task.next } else u) = isTick u := by
    intro u hu
    split
    · next heq =>
      have := h.eq_of_id hu ht heq
      subst this
      simp only [isTick]
      exact hnext u.task
    · rfl
  have hmapid : (T.map fun u => if u.id = t.id then { u with due := d, task := t.task.next } else u).map
      Timer.id = T.map Timer.id := by
    rw [List.map_map]
    apply List.map_congr_left
    intro u _
    exact hid u
  refine ⟨?_, ?_, ?_, ?_⟩
  · intro u hu
    obtain ⟨v, hv, rfl⟩ := List.mem_map.mp hu
    rw [hid]; exact h.lt v hv
  · rw [hmapid]; exact h.nodup
  · intro u hu hku
    obtain ⟨v, hv, rfl⟩ := List.mem_map.mp hu
    rw [hper]
    rw [htick v hv] at hku
    exact h.periodic v hv hku
  · rw [← h.ticks]
    have e1 : List.filter isTick
        (T.map fun u => if u.id = t.id then { u with due := d, task := t.task.next } else u) =
        (T.filter isTick).map
          fun u => if u.id = t.id then { u with due := d, task := t.task.next } else u := by
      rw [List.filter_map]
      congr 1
      apply List.filter_congr
      intro u hu
      exact htick u hu
    rw [e1, List.map_map]
    apply List.map_congr_left
    intro u _
    exact hid u

theorem inv_reset (s : State) (h : Inv s) : Inv (reset s) := by
  rw [reset_eq]
  exact TimerInv.cancel h

theorem inv_complete (oc : Option Fn) (s : State) (h : Inv s) : Inv (complete oc s) := by
  rw [complete_eq]
  have hc : TimerInv (cancelled s.progressController.timerId s.timers) s.nextHandle none :=
    TimerInv.cancel h
  cases oc with
  | none => simpa [Inv, scheduled] using hc
  | some f => simpa [Inv, scheduled] using hc.add ⟨s.nextHandle, s.now + 200, none, .invoke f⟩ rfl rfl

theorem inv_run (oc : Option Fn) (s : State) (h : Inv s) : Inv (run oc s) := by
  rw [run_eq]
  have hc : TimerInv (cancelled s.progressController.timerId s.timers) s.nextHandle none :=
    TimerInv.cancel h
  exact hc.addTick ⟨s.nextHandle, s.now + 30, some 30, .tick 0 oc⟩ rfl rfl (by simp)

/-- The invariant only looks at the table, the handle counter and `timerId`. -/
theorem inv_congr (s s' : State) (h : Inv s) (h1 : s'.timers = s.timers)
    (h2 : s'.nextHandle = s.nextHandle)
    (h3 : s'.progressController.timerId = s.progressController.timerId) : Inv s' := by
  unfold Inv at *
  rw [h1, h2, h3]; exact h

theorem inv_update (r : ℚ) (s : State) (h : Inv s) : Inv (UserCounter.update r s) := by
  unfold UserCounter.update
  split
  · exact h
  · exact inv_congr s _ h rfl rfl rfl

theorem inv_tick (e : Nat) (oc : Option Fn) (s : State) (h : Inv s) :
    Inv (ProgressController.tick e oc s) := by
  unfold ProgressController.tick
  have hu : Inv (updateBars (percentOf e) s) := by
    rw [updateBars_eq]; exact inv_congr s _ h rfl rfl rfl
  simp only []
  split
  · exact inv_complete oc _ hu
  · exact hu

theorem inv_runTask (r : ℚ) (task : Task) (s : State) (h : Inv s) : Inv (runTask r task s) := by
  cases task with
  | hideError => exact inv_congr s _ h rfl rfl rfl
  | tick e oc => exact inv_tick _ oc s h
  | invoke f =>
    cases f <;> exact inv_congr s _ h rfl rfl rfl
  | counterFirst =>
    have hu := inv_update r s h
    have := TimerInv.add hu ⟨(UserCounter.update r s).nextHandle,
      (UserCounter.update r s).now + UserCounter.updateInterval,
      some UserCounter.updateInterval, .counterUpdate⟩ rfl rfl
    simpa [runTask, setInterval, Inv] using this
  | counterUpdate => exact inv_update r s h

theorem inv_fire (r : ℚ) (t : Timer) (s : State) (h : Inv s) (ht : t ∈ s.timers) :
    Inv (fire r t s) := by
  unfold fire
  cases hp : t.period with
  | none =>
    have hk : isTick t = false := by
      by_contra hk
      exact h.periodic t ht (by simpa using hk) hp
    apply inv_runTask
    exact TimerInv.remove h ht hk
  | some p =>
    apply inv_runTask
    exact TimerInv.reschedule h ht (t.due + p)

theorem inv_showError (s : State) (h : Inv s) : Inv (showError s) := by
  have := TimerInv.add h ⟨s.nextHandle, s.now + 3000, none, .hideError⟩ rfl rfl
  simpa [showError, setTimeout, Inv] using this

theorem inv_startAnalysis (s : State) (h : Inv s) : Inv (startAnalysis s) := by
  unfold startAnalysis
  by_cases hp : s.isProcessing = true
  · simpa [hp] using h
  · by_cases hv : validateInput (trim s.dom.stockCode) = true
    · simp only [hp, hv]
      unfold beginAnalysisProcess
      apply inv_run
      cases s.dom.tipsCode <;> exact inv_congr s _ h rfl rfl rfl
    · simp only [hp, hv]
      exact inv_showError s h

theorem inv_closeModal (s : State) (h : Inv s) : Inv (closeModal s) := by
  unfold closeModal
  apply inv_reset
  exact inv_congr s _ h rfl rfl rfl

theorem inv_handle (s : State) (e : Event) (h : Inv s) : Inv (handle s e) := by
  cases e with
  | clickStart => exact inv_startAnalysis s h
  | clickClose => exact inv_closeModal s h
  | clickError => exact inv_congr s _ h rfl rfl rfl
  | keypress key =>
    simp only [handle]
    split
    · exact inv_startAnalysis s h
    · exact h
  | keydown key =>
    simp only [handle]
    split
    · exact inv_closeModal s h
    · exact h
  | input value => exact inv_congr s _ h rfl rfl rfl
  | timer hd r =>
    simp only [handle]
    split
    · next t ht => exact inv_fire r t s h (List.mem_of_find?_eq_some ht)
    · exact h
  | wait ms => exact inv_congr s _ h rfl rfl rfl

theorem inv_perform (cs : List Call) (s : State) (h : Inv s) : Inv (perform cs s) := by
  induction cs generalizing s with
  | nil => exact h
  | cons c cs ih =>
    apply ih
    cases c with
    | run oc => exact inv_run oc s h
    | reset => exact inv_reset s h
    | complete oc => exact inv_complete oc s h
    | event e => exact inv_handle s e h

theorem inv_initial (s0 : State) (hfresh : s0.progressController.timerId = none)
    (hnone : tickTimers s0 = [])
    (hlt : ∀ t ∈ s0.timers, t.id < s0.nextHandle)
    (hnodup : (s0.timers.map Timer.id).Nodup) : Inv s0 := by
  refine ⟨hlt, hnodup, ?_, ?_⟩
  · intro t ht hk
    have : t ∈ tickTimers s0 := List.mem_filter.mpr ⟨ht, hk⟩
    rw [hnone] at this
    simp at this
  · have : s0.timers.filter isTick = [] := hnone
    rw [this, hfresh]; rfl

theorem split_of_mem_nodup (T : List Timer) (e : Timer) (he : e ∈ T)
    (hn : (T.map Timer.id).Nodup) :
    ∃ T1 T2, T = T1 ++ e :: T2 ∧ (∀ u ∈ T1, u.id ≠ e.id) ∧ (∀ u ∈ T2, u.id ≠ e.id) := by
  obtain ⟨T1, T2, rfl⟩ := List.append_of_mem he
  refine ⟨T1, T2, rfl, ?_, ?_⟩
  · intro u hu hid
    rw [List.map_append, List.map_cons, List.nodup_append] at hn
    exact hn.2.2 (List.mem_map.mpr ⟨u, hu, rfl⟩) (by simp [hid])
  · intro u hu hid
    rw [List.map_append, List.map_cons, List.nodup_append] at hn
    have := (List.nodup_cons.mp hn.2.1).1
    exact this (List.mem_map.mpr ⟨u, hu, hid⟩)

theorem earliest_spec (T : List Timer) (e : Timer) (h : earliest T = some e) :
    e ∈ T ∧ ∀ t ∈ T, e.due ≤ t.due := by
  induction T generalizing e with
  | nil => simp [earliest] at h
  | cons t ts ih =>
    unfold earliest at h
    cases hts : earliest ts with
    | none =>
      rw [hts] at h
      simp at h
      subst h
      have hnil : ts = [] := by
        cases ts with
        | nil => rfl
        | cons a as =>
          unfold earliest at hts
          cases h2 : earliest as <;> simp [h2] at hts
          split at hts <;> simp at hts
      simp [hnil]
    | some u =>
      rw [hts] at h
      have hu := ih u hts
      simp only at h
      split at h
      · next hlt =>
        simp at h
        subst h
        refine ⟨List.mem_cons_of_mem _ hu.1, ?_⟩
        intro x hx
        rcases List.mem_cons.mp hx with rfl | hx
        · omega
        · exact hu.2 x hx
      · next hge =>
        simp at h
        subst h
        refine ⟨List.mem_cons_self _ _, ?_⟩
        intro x hx
        rcases List.mem_cons.mp hx with rfl | hx
        · exact le_refl _
        · have := hu.2 x hx
          omega

theorem fire_split (r : ℚ) (e : Timer) (T1 T2 : List Timer) (st : State)
    (hst : st.timers = T1 ++ e :: T2)
    (h1 : ∀ u ∈ T1, u.id ≠ e.id) (h2 : ∀ u ∈ T2, u.id ≠ e.id) :
    fire r e st =
      runTask r e.task { st with now := max st.now e.due, timers := afterFiring e T1 T2 } := by
  unfold fire afterFiring
  cases hp : e.period with
  | none =>
    simp only [hst]
    congr 2
    simp [List.filter_append, filter_ne_of_forall_ne' T1 e.id h1,
      filter_ne_of_forall_ne' T2 e.id h2]
  | some p =>
    simp only [hst]
    congr 2
    simp [map_of_forall_ne T1 e.id _ h1, map_of_forall_ne T2 e.id _ h2, hp]

theorem update_frame (r : ℚ) (st : State) :
    (UserCounter.update r st).timers = st.timers ∧
    (UserCounter.update r st).progressController = st.progressController ∧
    (UserCounter.update r st).invoked = st.invoked ∧
    (UserCounter.update r st).now = st.now ∧
    (UserCounter.update r st).nextHandle = st.nextHandle := by
  unfold UserCounter.update
  split <;> simp

/-- A callback that is neither a tick nor `f` leaves the animation alone. -/
theorem runTask_other (r : ℚ) (task : Task) (f : Fn) (st : State)
    (ht : ∀ el oc, task ≠ .tick el oc) (hf : task ≠ .invoke f) :
    (runTask r task st).timers.filter isTick = st.timers.filter isTick ∧
    ((runTask r task st).timers.filter fun t => t.task = .invoke f) =
      (st.timers.filter fun t => t.task = .invoke f) ∧
    (runTask r task st).progressController = st.progressController ∧
    callsOf f (runTask r task st).invoked = callsOf f st.invoked ∧
    (runTask r task st).now = st.now := by
  cases task with
  | hideError => exact ⟨rfl, rfl, rfl, rfl, rfl⟩
  | tick el oc => exact absurd rfl (ht el oc)
  | invoke g =>
    have hg : g ≠ f := fun h => hf (by rw [h])
    cases g <;> simp [runTask, invoke, callsOf, List.filter_append, onProgressComplete, hg]
  | counterFirst =>
    obtain ⟨h1, h2, h3, h4, h5⟩ := update_frame r st
    simp [runTask, setInterval, List.filter_append, h1, h2, h3, h4, isTick]
  | counterUpdate =>
    obtain ⟨h1, h2, h3, h4, h5⟩ := update_frame r st
    simp [runTask, h1, h2, h3, h4]

theorem afterFiring_filter (e : Timer) (T1 T2 : List Timer) (p : Timer → Bool)
    (he' : ∀ d, p { e with due := d, task := e.task.next } = false) :
    (afterFiring e T1 T2).filter p = T1.filter p ++ T2.filter p := by
  unfold afterFiring
  cases hq : e.period with
  | none => simp [List.filter_append]
  | some q =>
    have := he' (e.due + q)
    rw [hq] at this
    simp [List.filter_append, List.filter_cons, this]

theorem filter_split (T1 T2 : List Timer) (e : Timer) (p : Timer → Bool) :
    (T1 ++ e :: T2).filter p =
      T1.filter p ++ (if p e = true then [e] else []) ++ T2.filter p := by
  by_cases h : p e = true <;> simp [List.filter_append, List.filter_cons, h]

theorem append_cons_eq_singleton {α : Type} (A B : List α) (x y : α)
    (h : A ++ x :: B = [y]) : A = [] ∧ x = y ∧ B = [] := by
  cases A with
  | nil => simpa using h
  | cons a A => simp at h

theorem isTick_iff (t : Timer) : isTick t = true ↔ ∃ el oc, t.task = .tick el oc := by
  unfold isTick
  cases t.task <;> simp

/-- A turn of the event loop in which a timer of another kind fires. -/
theorem phase_other (s : State) (f : Fn) (r : ℚ) (st : State) (e : Timer) (T1 T2 : List Timer)
    (hph : Phase s f st) (hst : st.timers = T1 ++ e :: T2)
    (hmin : ∀ t ∈ st.timers, e.due ≤ t.due)
    (hk : isTick e = false) (hf : e.task ≠ .invoke f) :
    Phase s f
      (runTask r e.task { st with now := max st.now e.due, timers := afterFiring e T1 T2 }) := by
  have hnt : ∀ el oc, e.task ≠ .tick el oc := by
    intro el oc h
    have := (isTick_iff e).mpr ⟨el, oc, h⟩
    simp [hk] at this
  have hnext : e.task.next = e.task := by
    cases he : e.task with
    | tick el oc => exact absurd he (hnt el oc)
    | _ => rfl
  obtain ⟨f1, f2, f3, f4, f5⟩ := runTask_other r e.task f
    { st with now := max st.now e.due, timers := afterFiring e T1 T2 } hnt hf
  have ha1 : (afterFiring e T1 T2).filter isTick = T1.filter isTick ++ T2.filter isTick :=
    afterFiring_filter e T1 T2 isTick (by
      intro d
      have h : isTick { e with due := d, task := e.task.next } = isTick e := by
        simp only [isTick, hnext]
      rw [h]
      exact hk)
  have ha2 : ((afterFiring e T1 T2).filter fun t => decide (t.task = .invoke f)) =
      (T1.filter fun t => decide (t.task = .invoke f)) ++
        (T2.filter fun t => decide (t.task = .invoke f)) :=
    afterFiring_filter e T1 T2 _ (by
      intro d
      simp [hnext, hf])
  have hb1 : tickTimers st = T1.filter isTick ++ T2.filter isTick := by
    simp [tickTimers, hst, List.filter_append, List.filter_cons, hk]
  have hb2 : pendingCalls f st =
      (T1.filter fun t => decide (t.task = .invoke f)) ++
        (T2.filter fun t => decide (t.task = .invoke f)) := by
    simp [pendingCalls, hst, List.filter_append, List.filter_cons, hf]
  have g1 : tickTimers (runTask r e.task
      { st with now := max st.now e.due, timers := afterFiring e T1 T2 }) = tickTimers st := by
    rw [hb1, ← ha1]; exact f1
  have g2 : pendingCalls f (runTask r e.task
      { st with now := max st.now e.due, timers := afterFiring e T1 T2 }) = pendingCalls f st := by
    rw [hb2, ← ha2]; exact f2
  have g3 : (runTask r e.task
      { st with now := max st.now e.due, timers := afterFiring e T1 T2 }).progressController.timerId
      = st.progressController.timerId := by rw [f3]
  have g5 : (runTask r e.task
      { st with now := max st.now e.due, timers := afterFiring e T1 T2 }).now
      = max st.now e.due := f5
  cases hph with
  | ticking k hk50 htick hid hlo hhi hpend hlog =>
    have hx : (⟨s.nextHandle, s.now + 30 * (k + 1), some 30, .tick (30 * k) (some f)⟩ : Timer)
        ∈ st.timers := by
      have : (⟨s.nextHandle, s.now + 30 * (k + 1), some 30, .tick (30 * k) (some f)⟩ : Timer)
          ∈ tickTimers st := by rw [htick]; simp
      exact (List.mem_filter.mp this).1
    have hdue := hmin _ hx
    simp only at hdue
    exact Phase.ticking k hk50 (g1.trans htick) (g3.trans hid) (by rw [g5]; omega)
      (by rw [g5]; omega) (g2.trans hpend) (f4.trans hlog)
  | waiting c htick hid hlo hhi hpend hlog =>
    have hy : (⟨c, s.now + 1700, none, .invoke f⟩ : Timer) ∈ st.timers := by
      have : (⟨c, s.now + 1700, none, .invoke f⟩ : Timer) ∈ pendingCalls f st := by
        rw [hpend]; simp
      exact (List.mem_filter.mp this).1
    have hdue := hmin _ hy
    simp only at hdue
    exact Phase.waiting c (g1.trans htick) (g3.trans hid) (by rw [g5]; omega)
      (by rw [g5]; omega) (g2.trans hpend) (f4.trans hlog)
  | done htick hid hlo hpend hlog =>
    exact Phase.done (g1.trans htick) (g3.trans hid) (by rw [g5]; omega)
      (g2.trans hpend) (f4.trans hlog)

/-- A turn of the event loop in which the tick timer of the animation fires. -/
theorem phase_tick (s : State) (f : Fn) (r : ℚ) (st : State) (k : Nat) (T1 T2 : List Timer)
    (hk : k < 50)
    (hst : st.timers =
      T1 ++ ⟨s.nextHandle, s.now + 30 * (k + 1), some 30, .tick (30 * k) (some f)⟩ :: T2)
    (h1 : ∀ u ∈ T1, u.id ≠ s.nextHandle) (h2 : ∀ u ∈ T2, u.id ≠ s.nextHandle)
    (htick : tickTimers st =
      [⟨s.nextHandle, s.now + 30 * (k + 1), some 30, .tick (30 * k) (some f)⟩])
    (hid : st.progressController.timerId = some s.nextHandle)
    (hhi : st.now ≤ s.now + 30 * (k + 1))
    (hpend : pendingCalls f st = [])
    (hlog : callsOf f st.invoked = callsOf f s.invoked) :
    Phase s f
      (runTask r (.tick (30 * k) (some f))
        { st with
          now := max st.now (s.now + 30 * (k + 1))
          timers := afterFiring
            ⟨s.nextHandle, s.now + 30 * (k + 1), some 30, .tick (30 * k) (some f)⟩ T1 T2 }) := by
  have hnow : max st.now (s.now + 30 * (k + 1)) = s.now + 30 * (k + 1) := by omega
  have ht := filter_split T1 T2
    ⟨s.nextHandle, s.now + 30 * (k + 1), some 30, .tick (30 * k) (some f)⟩ isTick
  rw [← hst] at ht
  have ht' : tickTimers st = st.timers.filter isTick := rfl
  rw [← ht', htick] at ht
  simp only [isTick, if_true, List.append_assoc, List.singleton_append] at ht
  obtain ⟨ht1, -, ht2⟩ := append_cons_eq_singleton _ _ _ _ ht.symm
  have hp := filter_split T1 T2
    ⟨s.nextHandle, s.now + 30 * (k + 1), some 30, .tick (30 * k) (some f)⟩
    (fun t => decide (t.task = .invoke f))
  rw [← hst] at hp
  have hp' : pendingCalls f st = st.timers.filter fun t => decide (t.task = .invoke f) := rfl
  rw [← hp', hpend] at hp
  simp at hp
  obtain ⟨hp1, hp2⟩ := hp
  have hp1' : (T1.filter fun t => decide (t.task = .invoke f)) = [] := by simpa using hp1
  have hp2' : (T2.filter fun t => decide (t.task = .invoke f)) = [] := by simpa using hp2
  by_cases hlast : k = 49
  · subst hlast
    have hge : duration ≤ 30 * 49 + interval := by decide
    refine Phase.waiting st.nextHandle ?_ ?_ ?_ ?_ ?_ ?_
    · simp [runTask, ProgressController.tick, updateBars_eq, hge, complete_eq, hid, cancelled,
        afterFiring, Task.next, tickTimers, scheduled, List.filter_append, List.filter_cons,
        filter_ne_of_forall_ne' T1 _ h1, filter_ne_of_forall_ne' T2 _ h2, ht1, ht2, isTick]
    · simp [runTask, ProgressController.tick, updateBars_eq, hge, complete_eq]
    · simp [runTask, ProgressController.tick, updateBars_eq, hge, complete_eq, hnow]
    · simp [runTask, ProgressController.tick, updateBars_eq, hge, complete_eq, hnow]
    · simp [runTask, ProgressController.tick, updateBars_eq, hge, complete_eq, hid, cancelled,
        afterFiring, Task.next, pendingCalls, scheduled, List.filter_append, List.filter_cons,
        filter_ne_of_forall_ne' T1 _ h1, filter_ne_of_forall_ne' T2 _ h2, hp1', hp2', hnow]
    · simpa [runTask, ProgressController.tick, updateBars_eq, hge, complete_eq] using hlog
  · have hlt : ¬ (duration ≤ 30 * k + interval) := by
      simp only [duration, interval]; omega
    have hlt' : ¬ (duration ≤ 30 * k + 30) := hlt
    refine Phase.ticking (k + 1) (by omega) ?_ ?_ ?_ ?_ ?_ ?_
    · simp [runTask, ProgressController.tick, updateBars_eq, hlt', afterFiring, Task.next,
        tickTimers, List.filter_append, List.filter_cons, ht1, ht2, isTick, interval]
      omega
    · simpa [runTask, ProgressController.tick, updateBars_eq, hlt] using hid
    · simp [runTask, ProgressController.tick, updateBars_eq, hlt, hnow]
    · simp [runTask, ProgressController.tick, updateBars_eq, hlt, hnow]
    · simp [runTask, ProgressController.tick, updateBars_eq, hlt, afterFiring, Task.next,
        pendingCalls, List.filter_append, List.filter_cons, hp1', hp2']
    · simpa [runTask, ProgressController.tick, updateBars_eq, hlt] using hlog

/-- A turn of the event loop in which the scheduled call of `f` fires. -/
theorem phase_call (s : State) (f : Fn) (r : ℚ) (st : State) (c : Nat) (T1 T2 : List Timer)
    (hst : st.timers = T1 ++ ⟨c, s.now + 1700, none, .invoke f⟩ :: T2)
    (htick : tickTimers st = [])
    (hid : st.progressController.timerId = none)
    (hhi : st.now ≤ s.now + 1700)
    (hpend : pendingCalls f st = [⟨c, s.now + 1700, none, .invoke f⟩])
    (hlog : callsOf f st.invoked = callsOf f s.invoked) :
    Phase s f
      (runTask r (.invoke f)
        { st with
          now := max st.now (s.now + 1700)
          timers := afterFiring ⟨c, s.now + 1700, none, .invoke f⟩ T1 T2 }) := by
  have hnow : max st.now (s.now + 1700) = s.now + 1700 := by omega
  have ht := filter_split T1 T2 ⟨c, s.now + 1700, none, .invoke f⟩ isTick
  rw [← hst] at ht
  have ht' : tickTimers st = st.timers.filter isTick := rfl
  rw [← ht', htick] at ht
  simp [isTick] at ht
  obtain ⟨ht1, ht2⟩ := ht
  have ht1' : T1.filter isTick = [] := by simpa using ht1
  have ht2' : T2.filter isTick = [] := by simpa using ht2
  have hp := filter_split T1 T2 ⟨c, s.now + 1700, none, .invoke f⟩
    (fun t => decide (t.task = .invoke f))
  rw [← hst] at hp
  have hp' : pendingCalls f st = st.timers.filter fun t => decide (t.task = .invoke f) := rfl
  rw [← hp', hpend] at hp
  simp only [decide_True, if_true, List.append_assoc, List.singleton_append] at hp
  obtain ⟨hp1, -, hp2⟩ := append_cons_eq_singleton _ _ _ _ hp.symm
  refine Phase.done ?_ ?_ ?_ ?_ ?_
  · cases f <;>
      simp [runTask, invoke, onProgressComplete, afterFiring, tickTimers, List.filter_append,
        ht1', ht2']
  · cases f <;> simpa [runTask, invoke, onProgressComplete] using hid
  · cases f <;> simp [runTask, invoke, onProgressComplete, hnow]
  · cases f <;>
      simp [runTask, invoke, onProgressComplete, afterFiring, pendingCalls, List.filter_append,
        hp1, hp2]
  · have : callsOf f (st.invoked ++ [(s.now + 1700, f)]) =
        callsOf f s.invoked ++ [(s.now + 1700, f)] := by
      simp [callsOf, List.filter_append] at hlog ⊢
      exact hlog
    cases f <;> simpa [runTask, invoke, onProgressComplete, hnow] using this

/-- One turn of the event loop keeps the animation in a phase. -/
theorem phase_step (s : State) (f : Fn) (r : ℚ) (st : State) (hinv : Inv st)
    (hph : Phase s f st) : Phase s f (step r st) := by
  unfold step
  cases hE : earliest st.timers with
  | none => exact hph
  | some e =>
    obtain ⟨he, hmin⟩ := earliest_spec _ e hE
    obtain ⟨T1, T2, hT, h1, h2⟩ := split_of_mem_nodup _ e he hinv.nodup
    simp only
    rw [fire_split r e T1 T2 st hT h1 h2]
    by_cases hk : isTick e = true
    · have hmem : e ∈ tickTimers st := List.mem_filter.mpr ⟨he, hk⟩
      cases hph with
      | ticking k hk50 htick hid hlo hhi hpend hlog =>
        rw [htick] at hmem
        simp only [List.mem_singleton] at hmem
        subst hmem
        exact phase_tick s f r st k T1 T2 hk50 hT h1 h2 htick hid hhi hpend hlog
      | waiting c htick hid hlo hhi hpend hlog => rw [htick] at hmem; simp at hmem
      | done htick hid hlo hpend hlog => rw [htick] at hmem; simp at hmem
    · by_cases hf : e.task = .invoke f
      · have hmem : e ∈ pendingCalls f st :=
          List.mem_filter.mpr ⟨he, by simpa using hf⟩
        cases hph with
        | ticking k hk50 htick hid hlo hhi hpend hlog => rw [hpend] at hmem; simp at hmem
        | waiting c htick hid hlo hhi hpend hlog =>
          rw [hpend] at hmem
          simp only [List.mem_singleton] at hmem
          subst hmem
          exact phase_call s f r st c T1 T2 hT htick hid hhi hpend hlog
        | done htick hid hlo hpend hlog => rw [hpend] at hmem; simp at hmem
      · exact phase_other s f r st e T1 T2 hph hT hmin (by simpa using hk) hf

theorem inv_step (r : ℚ) (st : State) (hinv : Inv st) : Inv (step r st) := by
  unfold step
  cases hE : earliest st.timers with
  | none => exact hinv
  | some e => exact inv_fire r e st hinv (earliest_spec _ e hE).1

/-- The state right after `run (some f)` is in the first phase. -/
theorem phase_run (s : State) (f : Fn) (hinv : Inv s) (hpend : pendingCalls f s = []) :
    Phase s f (run (some f) s) := by
  have hc : TimerInv (cancelled s.progressController.timerId s.timers) s.nextHandle none :=
    TimerInv.cancel hinv
  have hcticks := hc.ticks
  simp only [Option.toList, List.map_eq_nil_iff] at hcticks
  have hsub : ((cancelled s.progressController.timerId s.timers).filter
      fun t => decide (t.task = .invoke f)) = [] := by
    rw [List.filter_eq_nil_iff]
    intro t ht
    have hmem := mem_cancelled _ _ t ht
    have hnil : (s.timers.filter fun t => decide (t.task = .invoke f)) = [] := hpend
    rw [List.filter_eq_nil_iff] at hnil
    exact hnil t hmem
  rw [run_eq]
  refine Phase.ticking 0 (by decide) ?_ ?_ ?_ ?_ ?_ ?_
  · simp [tickTimers, List.filter_append, hcticks, isTick]
  · rfl
  · simp
  · simp
  · simp [pendingCalls, List.filter_append, hsub]
  · rfl

/-- Every number of turns of the event loop after `run (some f)` leaves the
animation in a phase. -/
theorem phase_steps (s : State) (f : Fn) (hinv : Inv s) (hpend : pendingCalls f s = [])
    (rs : List ℚ) :
    Phase s f (steps rs (run (some f) s)) ∧ Inv (steps rs (run (some f) s)) := by
  induction rs using List.reverseRecOn with
  | nil => exact ⟨phase_run s f hinv hpend, inv_run _ s hinv⟩
  | append_singleton rs r ih =>
    rw [steps_snoc]
    exact ⟨phase_step s f r _ ih.2 ih.1, inv_step r _ ih.2⟩

/-- In a state that satisfies the invariant, the table without the entry of
`timerId` holds no tick timer. -/
theorem filter_isTick_cancelled (s : State) (hinv : Inv s) :
    (cancelled s.progressController.timerId s.timers).filter isTick = [] := by
  have hc : TimerInv (cancelled s.progressController.timerId s.timers) s.nextHandle none :=
    TimerInv.cancel hinv
  have hcticks := hc.ticks
  simp only [Option.toList, List.map_eq_nil_iff] at hcticks
  exact hcticks

/-- The widths on the sample page 17, 34, 49 and 50 ticks into an animation. -/
theorem sample_bar_widths :
    (ticks 2 17 (run none sampleApp)).dom.bars = ["34%", "1.5%", "0%"] ∧
    (ticks 2 34 (run none sampleApp)).dom.bars = ["68%", "52.5%", "6%"] ∧
    (ticks 2 49 (run none sampleApp)).dom.bars = ["98%", "97.5%", "96%"] ∧
    (ticks 2 50 (run none sampleApp)).dom.bars = ["100%", "100%", "100%"] := by
  decide!

/-- The same stale callback when the user starts again right after closing: 200
ms into the second animation, whose tick timer is still running, the callback
of the first one hides the progress container and shows the result panel. -/
theorem stale_completion_interrupts_next_run :
    (steps (List.replicate 7 0)
      (handle (handle (steps (List.replicate 50 0) (handle sampleApp .clickStart)) .clickClose)
        .clickStart)).timers =
      [⟨1, 1005000, none, .counterFirst⟩,
       ⟨4, 1001710, some 30, .tick 180 (some .progressDone)⟩] ∧
    (steps (List.replicate 7 0)
      (handle (handle (steps (List.replicate 50 0) (handle sampleApp .clickStart)) .clickClose)
        .clickStart)).dom.progress = "none" ∧
    (steps (List.replicate 7 0)
      (handle (handle (steps (List.replicate 50 0) (handle sampleApp .clickStart)) .clickClose)
        .clickStart)).dom.result = "block" := by
  decide!

/-! ## The claims -/

/-- C1. When `isProcessing` is false and the trimmed value of the input is not
empty, `startAnalysis()` sets `isProcessing`, shows the modal (`flex`), hides
the result panel (`none`), writes the trimmed value into `#tips-code` when that
element exists, and registers exactly one tick timer: the table afterwards is
the old one, without the entry a stale `timerId` pointed to, followed by one
new interval entry whose handle is stored in `timerId`; in a state that
satisfies the invariant of the timer table this new entry is the only tick
timer. When `isProcessing` is true, `startAnalysis()` returns the state
unchanged. -/
theorem startAnalysis_begins (s : State) :
    (s.isProcessing = false → trim s.dom.stockCode ≠ "" →
      (startAnalysis s).isProcessing = true ∧
      (startAnalysis s).dom.modal = "flex" ∧
      (startAnalysis s).dom.result = "none" ∧
      (startAnalysis s).dom.tipsCode = s.dom.tipsCode.map (fun _ => trim s.dom.stockCode) ∧
      (startAnalysis s).timers =
        cancelled s.progressController.timerId s.timers ++
          [⟨s.nextHandle, s.now + 30, some 30, .tick 0 (some .progressDone)⟩] ∧
      (startAnalysis s).progressController.timerId = some s.nextHandle ∧
      (startAnalysis s).nextHandle = s.nextHandle + 1 ∧
      (Inv s → tickTimers (startAnalysis s) =
        [⟨s.nextHandle, s.now + 30, some 30, .tick 0 (some .progressDone)⟩])) ∧
    (s.isProcessing = true → startAnalysis s = s) := by
  constructor
  · intro hp hv
    have hval : validateInput (trim s.dom.stockCode) = true :=
      (validateInput_eq_true_iff _).mpr hv
    have htimers : (startAnalysis s).timers =
        cancelled s.progressController.timerId s.timers ++
          [⟨s.nextHandle, s.now + 30, some 30, .tick 0 (some .progressDone)⟩] := by
      cases ht : s.dom.tipsCode <;>
        simp [startAnalysis, hp, hval, beginAnalysisProcess, run_eq, ht]
    refine ⟨?_, ?_, ?_, ?_, htimers, ?_, ?_, ?_⟩
    · cases ht : s.dom.tipsCode <;>
        simp [startAnalysis, hp, hval, beginAnalysisProcess, run_eq, ht]
    · cases ht : s.dom.tipsCode <;>
        simp [startAnalysis, hp, hval, beginAnalysisProcess, run_eq, ht]
    · cases ht : s.dom.tipsCode <;>
        simp [startAnalysis, hp, hval, beginAnalysisProcess, run_eq, ht]
    · cases ht : s.dom.tipsCode <;>
        simp [startAnalysis, hp, hval, beginAnalysisProcess, run_eq, ht]
    · cases ht : s.dom.tipsCode <;>
        simp [startAnalysis, hp, hval, beginAnalysisProcess, run_eq, ht]
    · cases ht : s.dom.tipsCode <;>
        simp [startAnalysis, hp, hval, beginAnalysisProcess, run_eq, ht]
    · intro hinv
      rw [tickTimers, htimers, List.filter_append, filter_isTick_cancelled s hinv]
      rfl
  · intro hp
    simp [startAnalysis, hp]

theorem startAnalysis_begins_witness :
    (startAnalysis sampleApp).isProcessing = true ∧
    (startAnalysis sampleApp).dom.modal = "flex" ∧
    (startAnalysis sampleApp).dom.result = "none" ∧
    (startAnalysis sampleApp).dom.tipsCode = some "AAPL" ∧
    (startAnalysis sampleApp).timers =
      [⟨1, 1005000, none, .counterFirst⟩, ⟨2, 1000030, some 30, .tick 0 (some .progressDone)⟩] ∧
    startAnalysis (startAnalysis sampleApp) = startAnalysis sampleApp :=
  have h := (startAnalysis_begins sampleApp).1 (by decide) (by decide)
  ⟨h.1, h.2.1, h.2.2.1, h.2.2.2.1, h.2.2.2.2.1,
    (startAnalysis_begins (startAnalysis sampleApp)).2 h.1⟩

/-- C2. When `isProcessing` is false and the input is empty or holds only white
space, `startAnalysis()` sets the banner to `flex` and registers exactly one
one-shot timer due 3000 ms later; nothing else changes (every other field of
the state, among them `isProcessing`, the modal, `#tips-code` and `timerId`, is
the old one, and no tick timer is added). The callback of that timer sets the
banner to `none` and changes nothing else, and when the timer fires the clock
reads `now + 3000` and the banner is `none`. -/
theorem startAnalysis_blank (s : State) (hp : s.isProcessing = false)
    (hv : ∀ c ∈ s.dom.stockCode.data, isWhiteSpace c = true) :
    startAnalysis s =
      { s with
          dom := { s.dom with error := "flex" }
          timers := s.timers ++ [⟨s.nextHandle, s.now + 3000, none, .hideError⟩]
          nextHandle := s.nextHandle + 1 } ∧
    (∀ (random : ℚ) (st : State),
      runTask random .hideError st = { st with dom := { st.dom with error := "none" } }) ∧
    (∀ random : ℚ,
      (fire random ⟨s.nextHandle, s.now + 3000, none, .hideError⟩ (startAnalysis s)).now =
        s.now + 3000 ∧
      (fire random ⟨s.nextHandle, s.now + 3000, none, .hideError⟩ (startAnalysis s)).dom.error =
        "none") := by
  have hval : validateInput (trim s.dom.stockCode) = false := by
    rw [trim_of_all_whiteSpace _ hv]; rfl
  have hstart : startAnalysis s =
      { s with
          dom := { s.dom with error := "flex" }
          timers := s.timers ++ [⟨s.nextHandle, s.now + 3000, none, .hideError⟩]
          nextHandle := s.nextHandle + 1 } := by
    simp [startAnalysis, hp, hval, showError, setTimeout]
  refine ⟨hstart, fun _ _ => rfl, ?_⟩
  intro random
  rw [hstart]
  simp [fire, runTask]

theorem startAnalysis_blank_witness :
    startAnalysis blankApp =
      { blankApp with
          dom := { blankApp.dom with error := "flex" }
          timers := blankApp.timers ++ [⟨blankApp.nextHandle, blankApp.now + 3000, none, .hideError⟩]
          nextHandle := blankApp.nextHandle + 1 } :=
  (startAnalysis_blank blankApp (by decide) (by decide)).1

/-- C5. After `run(f)` with a function `f` and with no `reset()` or `run()`
afterwards, the event loop firing each timer when it is due.

With no other timer pending: during the first 49 turns the tick timer stays
registered (next due 30 ms after the previous tick) and nothing is called; the
50th turn is the tick with `elapsed = 1500`, at 1500 ms, and it cancels the tick
timer and leaves `f` as the only entry, due at 1700 ms; the 51st turn calls `f`
at 1700 ms; afterwards the table is empty, so no tick fires again and `f` has
been called exactly once, at a time `t` with `1700 ≤ t ≤ 1730`.

Among any other pending timers (in a state that satisfies the invariant of the
timer table, and when no pending timer already calls `f`): after any number of
turns the animation is in one of the three phases of `Phase`; while the clock
is before 1500 ms the tick timer is registered with `elapsed < 1500`, once it
is past 1500 ms the tick timer is gone and `timerId` is null; while the clock
is before 1700 ms `f` has not been called, and once it is past 1700 ms `f` has
been called exactly once, at 1700 ms. -/
theorem run_completes_once (s : State) (f : Fn) :
    (s.timers = [] →
      (∀ rs : List ℚ, rs.length < 50 →
        (steps rs (run (some f) s)).now = s.now + 30 * rs.length ∧
        (steps rs (run (some f) s)).timers =
          [⟨s.nextHandle, s.now + 30 * (rs.length + 1), some 30,
            .tick (30 * rs.length) (some f)⟩] ∧
        (steps rs (run (some f) s)).progressController.timerId = some s.nextHandle ∧
        (steps rs (run (some f) s)).invoked = s.invoked) ∧
      (∀ rs : List ℚ, rs.length = 50 →
        (steps rs (run (some f) s)).now = s.now + 1500 ∧
        (steps rs (run (some f) s)).timers =
          [⟨s.nextHandle + 1, s.now + 1700, none, .invoke f⟩] ∧
        (steps rs (run (some f) s)).progressController.timerId = none ∧
        (steps rs (run (some f) s)).invoked = s.invoked) ∧
      (∀ rs : List ℚ, 51 ≤ rs.length →
        (steps rs (run (some f) s)).now = s.now + 1700 ∧
        (steps rs (run (some f) s)).timers = [] ∧
        (steps rs (run (some f) s)).progressController.timerId = none ∧
        (steps rs (run (some f) s)).invoked = s.invoked ++ [(s.now + 1700, f)]) ∧
      (∃ t : Nat, 1700 ≤ t ∧ t ≤ 1730 ∧ ∀ rs : List ℚ, 51 ≤ rs.length →
        (steps rs (run (some f) s)).invoked = s.invoked ++ [(s.now + t, f)])) ∧
    (Inv s → pendingCalls f s = [] → ∀ rs : List ℚ,
      Phase s f (steps rs (run (some f) s)) ∧
      ((steps rs (run (some f) s)).now < s.now + 1500 →
        ∃ k, k < 50 ∧ tickTimers (steps rs (run (some f) s)) =
          [⟨s.nextHandle, s.now + 30 * (k + 1), some 30, .tick (30 * k) (some f)⟩]) ∧
      (s.now + 1500 < (steps rs (run (some f) s)).now →
        tickTimers (steps rs (run (some f) s)) = [] ∧
        (steps rs (run (some f) s)).progressController.timerId = none) ∧
      ((steps rs (run (some f) s)).now < s.now + 1700 →
        callsOf f (steps rs (run (some f) s)).invoked = callsOf f s.invoked) ∧
      (s.now + 1700 < (steps rs (run (some f) s)).now →
        callsOf f (steps rs (run (some f) s)).invoked =
          callsOf f s.invoked ++ [(s.now + 1700, f)])) := by
  constructor
  · intro hidle
    have hfresh : ∀ t ∈ s.timers, t.id ≠ s.nextHandle := by simp [hidle]
    have h50 : ∀ rs : List ℚ, rs.length = 50 →
        steps rs (run (some f) s) =
          { s with
            now := s.now + 1500
            timers := [⟨s.nextHandle + 1, s.now + 1700, none, .invoke f⟩]
            nextHandle := s.nextHandle + 1 + 1
            progressController := { timerId := none }
            dom := { s.dom with progress := "block", bars := s.dom.bars.map fun _ => "100%" } } := by
      intro rs hrs
      rw [steps_run_eq_ticks s _ rs hidle (by omega), hrs, ticks_run_done s _ hfresh]
      simp [hidle, cancelled_nil, scheduled]
    have h51 : ∀ rs : List ℚ, 51 ≤ rs.length →
        (steps rs (run (some f) s)).now = s.now + 1700 ∧
        (steps rs (run (some f) s)).timers = [] ∧
        (steps rs (run (some f) s)).progressController.timerId = none ∧
        (steps rs (run (some f) s)).invoked = s.invoked ++ [(s.now + 1700, f)] := by
      intro rs hrs
      have hsplit : rs = rs.take 50 ++ ([rs[50]] ++ rs.drop 51) := by simp
      have hlen : (rs.take 50).length = 50 := by simp; omega
      rw [hsplit]
      simp only [steps, List.foldl_append, List.foldl_cons, List.foldl_nil]
      have := h50 (rs.take 50) hlen
      simp only [steps] at this
      rw [this]
      have hfire : step rs[50]
          { s with
            now := s.now + 1500
            timers := [⟨s.nextHandle + 1, s.now + 1700, none, .invoke f⟩]
            nextHandle := s.nextHandle + 1 + 1
            progressController := { timerId := none }
            dom := { s.dom with progress := "block", bars := s.dom.bars.map fun _ => "100%" } } =
          invoke f
          { s with
            now := s.now + 1700
            timers := []
            nextHandle := s.nextHandle + 1 + 1
            progressController := { timerId := none }
            dom := { s.dom with progress := "block", bars := s.dom.bars.map fun _ => "100%" } } := by
        rw [step_single _ ⟨s.nextHandle + 1, s.now + 1700, none, .invoke f⟩ _ rfl]
        simp [fire, runTask]
      rw [hfire]
      have hidle2 : (invoke f
          { s with
            now := s.now + 1700
            timers := []
            nextHandle := s.nextHandle + 1 + 1
            progressController := { timerId := none }
            dom := { s.dom with progress := "block", bars := s.dom.bars.map fun _ => "100%" } }).timers = [] := by
        cases f <;> rfl
      have := steps_idle (rs.drop 51) _ hidle2
      simp only [steps] at this
      rw [this]
      cases f <;> simp [invoke, onProgressComplete]
    refine ⟨?_, ?_, h51, ⟨1700, by norm_num, by norm_num, fun rs hrs => (h51 rs hrs).2.2.2⟩⟩
    · intro rs hrs
      rw [steps_run_eq_ticks s _ rs hidle (by omega), ticks_run_eq s _ _ hfresh (by omega)]
      simp [hidle, cancelled_nil]
    · intro rs hrs
      rw [h50 rs hrs]
      simp
  · intro hinv hpend rs
    have hph := (phase_steps s f hinv hpend rs).1
    refine ⟨hph, ?_, ?_, ?_, ?_⟩
    · intro hnow
      cases hph with
      | ticking k hk50 htick hid hlo hhi hpend hlog => exact ⟨k, hk50, htick⟩
      | waiting c htick hid hlo hhi hpend hlog => omega
      | done htick hid hlo hpend hlog => omega
    · intro hnow
      cases hph with
      | ticking k hk50 htick hid hlo hhi hpend hlog => omega
      | waiting c htick hid hlo hhi hpend hlog => exact ⟨htick, hid⟩
      | done htick hid hlo hpend hlog => exact ⟨htick, hid⟩
    · intro hnow
      cases hph with
      | ticking k hk50 htick hid hlo hhi hpend hlog => exact hlog
      | waiting c htick hid hlo hhi hpend hlog => exact hlog
      | done htick hid hlo hpend hlog => omega
    · intro hnow
      cases hph with
      | ticking k hk50 htick hid hlo hhi hpend hlog => omega
      | waiting c htick hid hlo hhi hpend hlog => omega
      | done htick hid hlo hpend hlog => exact hlog

theorem run_completes_once_witness :
    (steps (List.replicate 50 0) (run (some (.other 7)) quietApp)).timers =
      [⟨2, 1001700, none, .invoke (.other 7)⟩] ∧
    (steps (List.replicate 51 0) (run (some (.other 7)) quietApp)).invoked =
      [(1001700, .other 7)] ∧
    Phase sampleApp (.other 7)
      (steps (List.replicate 60 0) (run (some (.other 7)) sampleApp)) :=
  have h := (run_completes_once quietApp (.other 7)).1 (by decide)
  ⟨(h.2.1 (List.replicate 50 0) (by decide)).2.1,
    (h.2.2.1 (List.replicate 51 0) (by decide)).2.2.2,
    ((run_completes_once sampleApp (.other 7)).2
      (inv_initial sampleApp (by decide) (by decide) (by decide) (by decide)) (by decide)
      (List.replicate 60 0)).1⟩

/-- C6. Whatever the widths of the three bars were, after the `k`-th tick of an
uninterrupted `run()`, `1 ≤ k ≤ 50`, the percentage is
`min(100, round(30k / 1500 · 100)) = 2k`, and the widths are: for `k ≤ 49`,
`2k%`, then `((2k - 33) · 1.5)%` if `2k > 33` and `0%` otherwise, then
`((2k - 66) · 3)%` if `2k > 66` and `0%` otherwise; for `k = 50`, `100%` three
times. -/
theorem bars_after_tick (s : State) (onComplete : Option Fn) (k : Nat)
    (hbars : s.dom.bars.length = 3) (hfresh : ∀ t ∈ s.timers, t.id ≠ s.nextHandle)
    (hk1 : 1 ≤ k) (hk50 : k ≤ 50) :
    percentOf (interval * k) = min 100 (mathRound ((30 * k : ℚ) / 1500 * 100)) ∧
    percentOf (interval * k) = 2 * k ∧
    (k ≤ 49 →
      (ticks s.nextHandle k (run onComplete s)).dom.bars =
        [numberToString ((2 * k : ℕ) : ℚ) ++ "%",
         if 2 * k > 33 then numberToString ((((2 * k : ℕ) : ℚ) - 33) * 1.5) ++ "%" else "0%",
         if 2 * k > 66 then numberToString ((((2 * k : ℕ) : ℚ) - 66) * 3) ++ "%" else "0%"]) ∧
    (k = 50 →
      (ticks s.nextHandle k (run onComplete s)).dom.bars = ["100%", "100%", "100%"]) := by
  refine ⟨?_, ?_, ?_, ?_⟩
  · simp [percentOf, interval, duration]
  · rw [interval, percentOf_tick k hk50]; push_cast; rfl
  · intro hk
    rw [ticks_run_eq s onComplete k hfresh hk]
    simp only []
    rw [map_zero_three _ hbars, widthsAfterTicks_three k hk50]
    have : k ≠ 0 := by omega
    simp [this]
  · intro hk
    subst hk
    rw [ticks_run_done s onComplete hfresh]
    simp only []
    rw [List.map_const', hbars]; rfl

theorem bars_after_tick_witness :
    percentOf (interval * 49) = 2 * 49 ∧
    (ticks sampleApp.nextHandle 49 (run none sampleApp)).dom.bars =
      [numberToString ((2 * 49 : ℕ) : ℚ) ++ "%",
       if 2 * 49 > 33 then numberToString ((((2 * 49 : ℕ) : ℚ) - 33) * 1.5) ++ "%" else "0%",
       if 2 * 49 > 66 then numberToString ((((2 * 49 : ℕ) : ℚ) - 66) * 3) ++ "%" else "0%"] :=
  have h := bars_after_tick sampleApp none 49 (by decide) (by decide) (by decide) (by decide)
  ⟨h.2.1, h.2.2.1 (by decide)⟩

/-- C7. From every state, `closeModal()` sets the modal, the result panel and
the progress container to `none`, clears `isProcessing`, leaves `timerId` null
with the entry it pointed to gone from the timer table (so that, in a state
that satisfies the invariant of the timer table, no tick timer is left), sets
every bar to `0%`, and leaves the input value, `#tips-code`, the error banner,
the user counter, its display and the store as they were. -/
theorem closeModal_effect (s : State) :
    (closeModal s).dom.modal = "none" ∧
    (closeModal s).dom.result = "none" ∧
    (closeModal s).dom.progress = "none" ∧
    (closeModal s).isProcessing = false ∧
    (closeModal s).progressController.timerId = none ∧
    (closeModal s).timers = cancelled s.progressController.timerId s.timers ∧
    (∀ h, s.progressController.timerId = some h → ∀ t ∈ (closeModal s).timers, t.id ≠ h) ∧
    (Inv s → tickTimers (closeModal s) = []) ∧
    (closeModal s).dom.bars = List.replicate s.dom.bars.length "0%" ∧
    (closeModal s).dom.stockCode = s.dom.stockCode ∧
    (closeModal s).dom.tipsCode = s.dom.tipsCode ∧
    (closeModal s).dom.error = s.dom.error ∧
    (closeModal s).userCounter = s.userCounter ∧
    (closeModal s).dom.peopleNum = s.dom.peopleNum ∧
    (closeModal s).storage = s.storage := by
  have htimers : (closeModal s).timers = cancelled s.progressController.timerId s.timers := by
    simp [closeModal, reset_eq]
  refine ⟨?_, ?_, ?_, ?_, ?_, htimers, ?_, ?_, ?_, ?_, ?_, ?_, ?_, ?_, ?_⟩
  · simp [closeModal, reset_eq]
  · simp [closeModal, reset_eq]
  · simp [closeModal, reset_eq]
  · simp [closeModal, reset_eq]
  · simp [closeModal, reset_eq]
  · intro h hh t ht
    rw [htimers, hh] at ht
    simp [cancelled] at ht
    exact ht.2
  · intro hinv
    rw [tickTimers, htimers]
    exact filter_isTick_cancelled s hinv
  · simp [closeModal, reset_eq]
  · simp [closeModal, reset_eq]
  · simp [closeModal, reset_eq]
  · simp [closeModal, reset_eq]
  · simp [closeModal, reset_eq]
  · simp [closeModal, reset_eq]
  · simp [closeModal, reset_eq]

theorem closeModal_effect_witness :
    (closeModal (startAnalysis sampleApp)).isProcessing = false ∧
    (closeModal (startAnalysis sampleApp)).progressController.timerId = none ∧
    (closeModal (startAnalysis sampleApp)).timers = [⟨1, 1005000, none, .counterFirst⟩] ∧
    (closeModal (startAnalysis sampleApp)).dom.stockCode = " AAPL " :=
  have h := closeModal_effect (startAnalysis sampleApp)
  ⟨h.2.2.2.1, h.2.2.2.2.1, h.2.2.2.2.2.1.trans (by decide),
    h.2.2.2.2.2.2.2.2.2.1.trans (by decide)⟩

/-- C8. For a clock reading with seconds `s ≥ 0` (in particular `0..59`) and
milliseconds `ms` in `0..999`, the delay computed by `start` is
`5000 - ((s mod 5) · 1000 + ms)`, it lies in `[1, 5000]`, the reading plus the
delay is a multiple of 5000 ms and no earlier instant after the reading is, and
the delay is a full 5000 ms when the reading is itself on a boundary. In the
state: when `#people_num` exists, `start` registers one one-shot timer for the
first update, due that delay after the clock value, and that due time is a
multiple of 5000 ms. -/
theorem firstDelay_next_boundary (s ms : Int) (hs0 : 0 ≤ s)
    (hm0 : 0 ≤ ms) (hm : ms ≤ 999) :
    UserCounter.firstDelay s ms = 5000 - (s % 5 * 1000 + ms) ∧
    1 ≤ UserCounter.firstDelay s ms ∧ UserCounter.firstDelay s ms ≤ 5000 ∧
    (s * 1000 + ms + UserCounter.firstDelay s ms) % 5000 = 0 ∧
    (∀ d : Int, 1 ≤ d → d < UserCounter.firstDelay s ms → (s * 1000 + ms + d) % 5000 ≠ 0) ∧
    ((s * 1000 + ms) % 5000 = 0 → UserCounter.firstDelay s ms = 5000) ∧
    (∀ st : State, st.dom.peopleNum.isSome →
      (UserCounter.start st).timers =
        st.timers ++
          [⟨st.nextHandle,
            st.now + (UserCounter.firstDelay ((st.now : Int) / 1000 % 60)
              ((st.now : Int) % 1000)).toNat,
            none, .counterFirst⟩] ∧
      (st.now + (UserCounter.firstDelay ((st.now : Int) / 1000 % 60)
        ((st.now : Int) % 1000)).toNat) % 5000 = 0) := by
  unfold UserCounter.firstDelay
  rw [Int.tmod_eq_emod hs0 (by norm_num)]
  refine ⟨rfl, by omega, by omega, by omega, ?_, by omega, ?_⟩
  · intro d hd1 hd2
    omega
  · intro st hst
    constructor
    · unfold UserCounter.start
      cases hpn : st.dom.peopleNum with
      | none => simp [hpn] at hst
      | some v => simp [setTimeout, UserCounter.firstDelay]
    · rw [Int.tmod_eq_emod (by omega) (by norm_num)]
      omega

theorem firstDelay_next_boundary_witness :
    UserCounter.firstDelay 7 250 = 5000 - (7 % 5 * 1000 + 250) ∧
    1 ≤ UserCounter.firstDelay 7 250 ∧ UserCounter.firstDelay 7 250 ≤ 5000 ∧
    (7 * 1000 + 250 + UserCounter.firstDelay 7 250) % 5000 = 0 :=
  have h := firstDelay_next_boundary 7 250 (by decide) (by decide) (by decide)
  ⟨h.1, h.2.1, h.2.2.1, h.2.2.2.1⟩

/-- C9. Start from a state in which `timerId` is null, no tick timer is
registered and the handles in the table are distinct and below the next handle
the browser hands out. After any sequence of calls of `run`, `reset` and
`complete` and of page events (among them every timer callback), at most one
tick timer is registered, one is registered exactly when `timerId` is not
null, and its handle is the one in `timerId`; and calling `run` while a tick
timer is registered removes that timer and leaves the new one as the only tick
timer. -/
theorem at_most_one_tick_timer (s0 : State) (cs : List Call)
    (hfresh : s0.progressController.timerId = none)
    (hnone : tickTimers s0 = [])
    (hlt : ∀ t ∈ s0.timers, t.id < s0.nextHandle)
    (hnodup : (s0.timers.map Timer.id).Nodup) :
    (tickTimers (perform cs s0)).length ≤ 1 ∧
    (tickTimers (perform cs s0) ≠ [] ↔ (perform cs s0).progressController.timerId ≠ none) ∧
    (tickTimers (perform cs s0)).map Timer.id =
      (perform cs s0).progressController.timerId.toList ∧
    (∀ (h : Nat) (onComplete : Option Fn),
      (perform cs s0).progressController.timerId = some h →
        (∀ t ∈ (run onComplete (perform cs s0)).timers, t.id ≠ h) ∧
        tickTimers (run onComplete (perform cs s0)) =
          [⟨(perform cs s0).nextHandle, (perform cs s0).now + 30, some 30,
            .tick 0 onComplete⟩]) := by
  have hinv : Inv (perform cs s0) :=
    inv_perform cs s0 (inv_initial s0 hfresh hnone hlt hnodup)
  generalize perform cs s0 = s at hinv
  have hticks : (tickTimers s).map Timer.id = s.progressController.timerId.toList := hinv.ticks
  refine ⟨?_, ?_, hticks, ?_⟩
  · have := congrArg List.length hticks
    rw [List.length_map] at this
    rw [this]
    cases s.progressController.timerId <;> simp
  · cases htid : s.progressController.timerId with
    | none =>
      rw [htid] at hticks
      simpa using hticks
    | some v =>
      rw [htid] at hticks
      simp
      intro hnil
      rw [hnil] at hticks
      simp at hticks
  · intro h oc htid
    have hc : TimerInv (cancelled s.progressController.timerId s.timers) s.nextHandle none :=
      TimerInv.cancel hinv
    have hcticks := hc.ticks
    simp only [Option.toList, List.map_eq_nil_iff] at hcticks
    have hmem : h ∈ (tickTimers s).map Timer.id := by rw [hticks, htid]; simp
    obtain ⟨u, hu, huid⟩ := List.mem_map.mp hmem
    have hlt' : h < s.nextHandle := by
      rw [← huid]; exact hinv.lt u (List.mem_filter.mp hu).1
    rw [run_eq]
    constructor
    · intro t ht
      simp only [List.mem_append, List.mem_singleton] at ht
      rcases ht with ht | ht
      · rw [htid] at ht
        simp [cancelled] at ht
        exact ht.2
      · subst ht
        simp
        omega
    · simp only [tickTimers, List.filter_append, hcticks]
      simp [isTick]

theorem at_most_one_tick_timer_witness :
    (tickTimers (perform [.run none, .event (.timer 2 0), .run (some .progressDone)]
      sampleApp)).length ≤ 1 ∧
    (tickTimers (perform [.run none, .event (.timer 2 0), .run (some .progressDone)]
      sampleApp)).map Timer.id =
      (perform [.run none, .event (.timer 2 0), .run (some .progressDone)]
        sampleApp).progressController.timerId.toList :=
  have h := at_most_one_tick_timer sampleApp
    [.run none, .event (.timer 2 0), .run (some .progressDone)]
    (by decide) (by decide) (by decide) (by decide)
  ⟨h.1, h.2.2.1⟩

/-- C10 fails on the code. On the sample page: click start, let the event loop
run the 50 ticks, click close during the 200 ms that follow (`isProcessing` is
false, the result panel is `none`, and the completion callback is still in the
timer table next to the counter), let the event loop run one more turn: the
completion callback fires and sets the result panel to `block` while
`isProcessing` is false. -/
theorem stale_completion_reveals_result :
    (handle (steps (List.replicate 50 0) (handle sampleApp .clickStart)) .clickClose).isProcessing
      = false ∧
    (handle (steps (List.replicate 50 0) (handle sampleApp .clickStart)) .clickClose).dom.result
      = "none" ∧
    (handle (steps (List.replicate 50 0) (handle sampleApp .clickStart)) .clickClose).timers =
      [⟨1, 1005000, none, .counterFirst⟩, ⟨3, 1001700, none, .invoke .progressDone⟩] ∧
    (step 0 (handle (steps (List.replicate 50 0) (handle sampleApp .clickStart))
      .clickClose)).isProcessing = false ∧
    (step 0 (handle (steps (List.replicate 50 0) (handle sampleApp .clickStart))
      .clickClose)).dom.result = "block" := by
  decide!

end Kamia
